import Mathlib

/-!
Verification of the compose-market/services batch-compilation pipelines
(`connector/scripts/mcp-compiler/{compiler.py,llm_service.py}` and
`connector/scripts/model-compiler/{compiler.py,llm_service.py}`) against the
natural-language specification.

The Python sources are shallowly embedded: pure helpers become Lean functions
over `String`/`List Char`, the stateful batch loops become folds over explicit
state records, and the external services (Runtime spawn, LLM inference) are
abstracted as environment oracles exactly at the call boundary the spec itself
declares external.  Python `dict`s keyed by id become insertion-ordered
association lists with overwrite-on-insert semantics.
-/

namespace Services

/-! ## Character classes used by the regular expressions in `compiler.py` -/

/-- Python `\s` on ASCII text: space, tab, newline, carriage return,
vertical tab, form feed. -/
def isPySpace (c : Char) : Bool :=
  c = ' ' || c = '\t' || c = '\n' || c = '\r' || c = '\x0b' || c = '\x0c'

/-- Character class `[A-Z]`. -/
def isUpperAZ (c : Char) : Bool :=
  'A' ≤ c && c ≤ 'Z'

/-- Character class `[a-z]`. -/
def isLowerAZ (c : Char) : Bool :=
  'a' ≤ c && c ≤ 'z'

/-- Character class `[0-9]`. -/
def isDigit09 (c : Char) : Bool :=
  '0' ≤ c && c ≤ '9'

/-- Character class `[A-Z_]` (start of an uppercase identifier). -/
def isUpperStart (c : Char) : Bool :=
  isUpperAZ c || c = '_'

/-- Character class `[A-Z0-9_]` (rest of an uppercase identifier). -/
def isUpperRest (c : Char) : Bool :=
  isUpperAZ c || isDigit09 c || c = '_'

/-- Regex word character `\w` on ASCII text: `[A-Za-z0-9_]`. -/
def isWordChar (c : Char) : Bool :=
  isUpperAZ c || isLowerAZ c || isDigit09 c || c = '_'

/-- Start of a word under `re.IGNORECASE`, i.e. `[A-Z_]` case-folded:
`[A-Za-z_]`. -/
def isWordAlpha (c : Char) : Bool :=
  isUpperAZ c || isLowerAZ c || c = '_'

/-- ASCII lower-casing of one character, as `str.lower()` does on ASCII. -/
def lowerChar (c : Char) : Char :=
  if isUpperAZ c then Char.ofNat (c.toNat + 32) else c

/-- ASCII upper-casing of one character, as `str.upper()` does on ASCII. -/
def upperChar (c : Char) : Char :=
  if isLowerAZ c then Char.ofNat (c.toNat - 32) else c

/-- Case-insensitive character comparison (ASCII), for `re.IGNORECASE`. -/
def ciEq (a b : Char) : Bool :=
  lowerChar a = lowerChar b

/-- Case-insensitive literal-prefix test on character lists. -/
def ciIsPrefix : List Char → List Char → Bool
  | [], _ => true
  | _ :: _, [] => false
  | p :: ps, c :: cs => ciEq p c && ciIsPrefix ps cs

/-! ## Credential detection (`detect_required_vars`, compiler.py lines 132-174) -/

/-- Pattern 1 of `detect_required_vars`, tried at one position: the literal
`requires credentials:` then `\s*` then a group `[A-Z_][A-Z0-9_]+`. -/
def credsPatternAt (s : List Char) : Option (List Char) :=
  if ("requires credentials:".toList).isPrefixOf s then
    let t := (s.drop "requires credentials:".length).dropWhile isPySpace
    match t with
    | [] => none
    | c :: rest =>
      if isUpperStart c then
        let tl := rest.takeWhile isUpperRest
        if tl.length ≥ 1 then some (c :: tl) else none
      else none
  else none

/-- Leftmost `re.search` for pattern 1 of `detect_required_vars`. -/
def credsSearch : List Char → Option (List Char)
  | [] => none
  | c :: rest =>
    match credsPatternAt (c :: rest) with
    | some g => some g
    | none => credsSearch rest

/-- Scan for the literal `required` (case-insensitively) with only
non-newline characters before it: the `.*required` tail of pattern 2
(`.` does not match a newline). -/
def envTailSearch : List Char → Bool
  | [] => false
  | c :: rest =>
    if ciIsPrefix "required".toList (c :: rest) then true
    else if c = '\n' then false
    else envTailSearch rest

/-- The part of pattern 2 after the captured group: `\s*` then the
alternation `environment variable required|env.*required`, case-insensitive. -/
def envSuffixMatches (s : List Char) : Bool :=
  let t := s.dropWhile isPySpace
  if ciIsPrefix "environment variable required".toList t then true
  else if ciIsPrefix "env".toList t then envTailSearch (t.drop 3)
  else false

/-- Greedy backtracking over the group length for pattern 2: try the longest
group run first (`{2,}` is greedy), down to total length 3. -/
def envGroupTry (run rest : List Char) : Nat → Option (List Char)
  | 0 => none
  | k + 1 =>
    if k + 1 < 3 then none
    else if envSuffixMatches (run.drop (k + 1) ++ rest) then some (run.take (k + 1))
    else envGroupTry run rest k

/-- Pattern 2 of `detect_required_vars` tried at one position:
`([A-Z_][A-Z0-9_]{2,})\s*(?:environment variable required|env.*required)`
under `re.IGNORECASE`. -/
def envPatternAt (s : List Char) : Option (List Char) :=
  match s with
  | [] => none
  | c :: rest =>
    if isWordAlpha c then
      let run := c :: rest.takeWhile isWordChar
      let after := rest.dropWhile isWordChar
      envGroupTry run after run.length
    else none

/-- Leftmost `re.search` for pattern 2 of `detect_required_vars`. -/
def envSearch : List Char → Option (List Char)
  | [] => none
  | c :: rest =>
    match envPatternAt (c :: rest) with
    | some g => some g
    | none => envSearch rest

/-- Maximal runs of characters satisfying `p`, left to right, skipping the
characters that do not satisfy it.  Fuel-based recursion (each step consumes
at least one character, so `s.length` fuel is always enough). -/
def runsByGo (p : Char → Bool) : Nat → List Char → List (List Char)
  | 0, _ => []
  | _ + 1, [] => []
  | fuel + 1, c :: rest =>
    if p c then
      (c :: rest.takeWhile p) :: runsByGo p fuel (rest.dropWhile p)
    else
      runsByGo p fuel rest

/-- Maximal runs of characters satisfying `p`. -/
def runsBy (p : Char → Bool) (s : List Char) : List (List Char) :=
  runsByGo p s.length s

/-- Maximal runs of word characters in a string, left to right; used for the
word-boundary pattern `\b([A-Z_][A-Z0-9_]{3,})\b` of `re.findall` (a match
bounded by `\b` on both sides must cover a full maximal run). -/
def wordRuns (s : List Char) : List (List Char) :=
  runsBy isWordChar s

/-- Shape test for a pattern-3 token: the whole maximal run must match
`[A-Z_][A-Z0-9_]{3,}` (at least 4 characters, word boundaries on both sides
force the match to cover the full run). -/
def isEnvToken (run : List Char) : Bool :=
  match run with
  | [] => false
  | c :: rest => isUpperStart c && rest.all isUpperRest && run.length ≥ 4

/-- The stoplist of structural words excluded by pattern 3. -/
def VAR_STOPLIST : List String :=
  ["SERVER", "ERROR", "FAILED", "TIMEOUT", "SESSION", "ID", "MCP", "API"]

/-- Python dict assignment `d[k] = v` on an insertion-ordered association
list: overwrite in place if the key exists, else append. -/
def dictInsert (m : List (String × α)) (k : String) (v : α) : List (String × α) :=
  if m.any (fun p => p.1 = k) then
    m.map (fun p => if p.1 = k then (k, v) else p)
  else
    m ++ [(k, v)]

/-- Python dict lookup `d.get(k)`. -/
def dictGet (m : List (String × α)) (k : String) : Option α :=
  (m.find? (fun p => p.1 = k)).map Prod.snd

/-- Python `del d[k]`. -/
def dictDelete (m : List (String × α)) (k : String) : List (String × α) :=
  m.filter (fun p => p.1 ≠ k)

/-- Key set of an association-list dict. -/
def dictKeys (m : List (String × α)) : List String :=
  m.map Prod.fst

/-- Embedding of `detect_required_vars` (compiler.py lines 132-174): extract
the credential variables mentioned by a Runtime error message.  Pattern 1
(`requires credentials: VAR`) and pattern 2 (`VAR ... environment variable
required`) each short-circuit with a single entry; otherwise pattern 3 collects
every bare uppercase token of length at least 4 not in the stoplist. -/
def detect_required_vars (error_msg : String) : List (String × String) :=
  let cs := error_msg.toList
  match credsSearch cs with
  | some g =>
    let v := String.mk g
    [(v, "Required: " ++ v)]
  | none =>
    match envSearch cs with
    | some g =>
      let v := String.mk (g.map upperChar)
      [(v, "Required: " ++ v)]
    | none =>
      (wordRuns cs).foldl
        (fun acc run =>
          if isEnvToken run then
            let v := String.mk run
            if VAR_STOPLIST.contains v then acc
            else dictInsert acc v ("Required: " ++ v)
          else acc)
        []

/-! ## LLM output validation (`LLMService._parse_json_response`, llm_service.py
lines 399-471)

The function first extracts a JSON object from the raw response text and runs
`json.loads`; the embedding starts at the post-`json.loads` boundary, i.e. at a
parsed object that has the keys `name`, `description` and a `tags` list, which
is exactly the premise of the spec's claims about it. -/

/-- Python `str.strip()` on ASCII text. -/
def stripPy (s : List Char) : List Char :=
  ((s.dropWhile isPySpace).reverse.dropWhile isPySpace).reverse

/-- Python `str.strip("-")`. -/
def stripDash (s : List Char) : List Char :=
  ((s.dropWhile (fun c => c = '-')).reverse.dropWhile (fun c => c = '-')).reverse

/-- Match of `\s*PHRASE\s*` (case-insensitive, greedy whitespace) at the head
of `s`: returns the number of characters consumed.  Every phrase starts with a
non-whitespace character, so maximal whitespace munching is exact. -/
def phraseMatchAt (ph s : List Char) : Option Nat :=
  let lead := (s.takeWhile isPySpace).length
  let t := s.drop lead
  if ciIsPrefix ph t then
    let t2 := t.drop ph.length
    some (lead + ph.length + (t2.takeWhile isPySpace).length)
  else none

/-- One pass of `re.sub(rf"\s*{phrase}\s*", " ", s, flags=re.IGNORECASE)`:
non-overlapping left-to-right replacement of every match by a single space.
Fuel-based recursion; every match consumes at least the phrase length, so
`s.length` fuel is always enough. -/
def subPhraseGo (ph : List Char) : Nat → List Char → List Char
  | 0, s => s
  | fuel + 1, s =>
    match phraseMatchAt ph s with
    | some k => ' ' :: subPhraseGo ph fuel (s.drop k)
    | none =>
      match s with
      | [] => []
      | c :: rest => c :: subPhraseGo ph fuel rest

/-- Replacement of all `\s*PHRASE\s*` matches by a single space. -/
def subPhrase (ph s : List Char) : List Char :=
  subPhraseGo ph s.length s

/-- Match of `\s+by\s+\S+` (case-insensitive) at the head of `s`: returns the
number of characters consumed. -/
def byMatchAt (s : List Char) : Option Nat :=
  let lead := (s.takeWhile isPySpace).length
  if lead = 0 then none
  else
    let t := s.drop lead
    if ciIsPrefix "by".toList t then
      let t2 := t.drop 2
      let mid := (t2.takeWhile isPySpace).length
      if mid = 0 then none
      else
        let t3 := t2.drop mid
        let word := (t3.takeWhile (fun c => !isPySpace c)).length
        if word = 0 then none else some (lead + 2 + mid + word)
    else none

/-- The deletion `re.sub(r"\s+by\s+\S+", "", s, flags=re.IGNORECASE)`:
non-overlapping left-to-right removal of every match. -/
def subByGo : Nat → List Char → List Char
  | 0, s => s
  | fuel + 1, s =>
    match byMatchAt s with
    | some k => subByGo fuel (s.drop k)
    | none =>
      match s with
      | [] => []
      | c :: rest => c :: subByGo fuel rest

/-- Removal of all attribution phrases of the form `by <token>`. -/
def subBy (s : List Char) : List Char :=
  subByGo s.length s

/-- Whitespace collapsing: `" ".join(s.split())` — equivalently
`re.sub(r"\s+", " ", s).strip()`, which the description path uses; both
reduce every whitespace run to one space and drop outer whitespace. -/
def collapseWs (s : List Char) : List Char :=
  List.intercalate [' '] (runsBy (fun c => !isPySpace c) s)

/-- Marketing/boilerplate phrases stripped from generated names
(`llm_service.py` line 436). -/
def NAME_PHRASES : List String :=
  ["MCP Server", "MCP", "Server", "| Glama", "| PulseMCP"]

/-- Name normalization of `_parse_json_response` (lines 435-444): strip,
delete the boilerplate phrases, delete `by <token>` attributions, collapse
whitespace, reject if shorter than 3 characters, truncate to 60. -/
def normalizeName (raw : String) : Option String :=
  let s0 := stripPy raw.toList
  let s1 := NAME_PHRASES.foldl (fun s ph => subPhrase ph.toList s) s0
  let s2 := subBy s1
  let s3 := collapseWs s2
  if s3.length < 3 then none else some (String.mk (s3.take 60))

/-- Description normalization of `_parse_json_response` (lines 446-451):
strip, delete a leading `MCP server:` boilerplate prefix (anchored regex, so
at most one occurrence), collapse whitespace, reject if shorter than 20
characters, truncate to 200. -/
def normalizeDescription (raw : String) : Option String :=
  let s0 := stripPy raw.toList
  let s1 :=
    if ciIsPrefix "MCP server:".toList s0 then
      (s0.drop "MCP server:".length).dropWhile isPySpace
    else s0
  let s2 := collapseWs s1
  if s2.length < 20 then none else some (String.mk (s2.take 200))

/-- The banned generic tags (`LLMService.BANNED_TAGS`). -/
def BANNED_TAGS : List String :=
  ["mcp", "server", "tool", "api", "client", "wrapper", "helper", "utility",
   "utilities"]

/-- Tag normalization (line 455-456): lowercase, strip, truncate to 25,
replace every character outside `[a-z0-9-]` by `-`, strip outer `-`. -/
def normalizeTag (t : String) : String :=
  let s0 := (t.toList.map lowerChar)
  let s1 := (stripPy s0).take 25
  let s2 := s1.map (fun c => if isLowerAZ c || isDigit09 c || c = '-' then c else '-')
  String.mk (stripDash s2)

/-- Validity filter for a normalized tag (line 457): non-empty, not banned,
at least 2 characters. -/
def tagIsValid (tag : String) : Bool :=
  tag ≠ "" && !(BANNED_TAGS.contains tag) && tag.length ≥ 2

/-- The tag pipeline of `_parse_json_response` (lines 453-458): only the
first five entries of the `tags` list are examined (`data["tags"][:5]`),
each is normalized, and the invalid ones are dropped. -/
def validatedTags (tags : List String) : List String :=
  ((tags.take 5).map normalizeTag).filter tagIsValid

/-- Structured metadata produced by the LLM service (`CleanedMetadata`). -/
structure CleanedMetadata where
  name : String := ""
  description : String := ""
  tags : List String := []
deriving Repr, DecidableEq

/-- The validation stage of `_parse_json_response` (lines 428-467) applied to
a parsed JSON object that has string values under `name` and `description`
and a list under `tags`: normalize the name (reject below 3 chars), the
description (reject below 20 chars), and the tags; reject when fewer than 2
valid tags remain; keep at most 4 tags. -/
def parse_json_validate (name description : String) (tags : List String) :
    Option CleanedMetadata :=
  match normalizeName name with
  | none => none
  | some n =>
    match normalizeDescription description with
    | none => none
    | some d =>
      let ts := validatedTags tags
      if ts.length < 2 then none
      else some ⟨n, d, ts.take 4⟩

/-! ## Timestamps

The mcp-compiler writes `datetime.now(timezone.utc).isoformat().replace("+00:00", "Z")`
(compiler.py lines 410-412, 448-450, 480, 524-528, 541-543, 557-559); the
model-compiler writes `datetime.utcnow().isoformat() + "Z"` (model-compiler
compiler.py lines 105, 110, 121, 180). -/

/-- A Python `datetime` value (UTC), field for field. -/
structure PyDateTime where
  year : Nat
  month : Nat
  day : Nat
  hour : Nat
  minute : Nat
  second : Nat
  microsecond : Nat
deriving Repr, DecidableEq

/-- One decimal digit as a character. -/
def digitChar : Nat → Char
  | 0 => '0' | 1 => '1' | 2 => '2' | 3 => '3' | 4 => '4'
  | 5 => '5' | 6 => '6' | 7 => '7' | 8 => '8' | _ => '9'

/-- Decimal digits of a natural number, most significant first (fuel-based;
`n + 1` fuel always suffices since the value shrinks by a factor 10). -/
def natDigitsGo : Nat → Nat → List Char
  | 0, _ => []
  | fuel + 1, n =>
    if n < 10 then [digitChar n]
    else natDigitsGo fuel (n / 10) ++ [digitChar (n % 10)]

/-- Decimal representation of a natural number. -/
def natDigits (n : Nat) : List Char :=
  natDigitsGo (n + 1) n

/-- Zero-padding to a fixed width, as Python `%02d`-style datetime fields. -/
def padNat (width n : Nat) : List Char :=
  List.replicate (width - (natDigits n).length) '0' ++ natDigits n

/-- Python `datetime.isoformat()` of a naive datetime:
`YYYY-MM-DDTHH:MM:SS[.ffffff]`, the fractional part omitted exactly when
`microsecond == 0`. -/
def isoformatNaive (d : PyDateTime) : List Char :=
  padNat 4 d.year ++ ['-'] ++ padNat 2 d.month ++ ['-'] ++ padNat 2 d.day ++
    ['T'] ++ padNat 2 d.hour ++ [':'] ++ padNat 2 d.minute ++ [':'] ++
    padNat 2 d.second ++
    (if d.microsecond = 0 then [] else ['.'] ++ padNat 6 d.microsecond)

/-- Python `datetime.isoformat()` of a `timezone.utc`-aware datetime: the
naive text followed by the `+00:00` offset. -/
def isoformatAware (d : PyDateTime) : List Char :=
  isoformatNaive d ++ "+00:00".toList

/-- Python `str.replace(old, new)` with a non-empty pattern `p :: ps`:
replace every non-overlapping occurrence, scanning left to right.  Fuel-based
recursion (each step consumes at least one character). -/
def pyReplaceGo (p : Char) (ps rep : List Char) : Nat → List Char → List Char
  | 0, s => s
  | _ + 1, [] => []
  | fuel + 1, c :: rest =>
    if (p :: ps).isPrefixOf (c :: rest) then
      rep ++ pyReplaceGo p ps rep fuel ((c :: rest).drop (ps.length + 1))
    else
      c :: pyReplaceGo p ps rep fuel rest

/-- Python `str.replace(old, new)` with a non-empty pattern. -/
def pyReplace (p : Char) (ps rep s : List Char) : List Char :=
  pyReplaceGo p ps rep s.length s

/-- Character list of the mcp-compiler timestamp:
`datetime.now(timezone.utc).isoformat().replace("+00:00", "Z")`. -/
def mcpTimestampChars (d : PyDateTime) : List Char :=
  pyReplace '+' "00:00".toList "Z".toList (isoformatAware d)

/-- The mcp-compiler timestamp as a string. -/
def mcpTimestamp (d : PyDateTime) : String :=
  String.mk (mcpTimestampChars d)

/-- Character list of the model-compiler timestamp:
`datetime.utcnow().isoformat() + "Z"`. -/
def modelTimestampChars (d : PyDateTime) : List Char :=
  isoformatNaive d ++ "Z".toList

/-- The model-compiler timestamp as a string. -/
def modelTimestamp (d : PyDateTime) : String :=
  String.mk (modelTimestampChars d)

/-! ## Spawn-config resolution (`get_spawn_configs`, compiler.py lines 177-287) -/

/-- The fixed transport priority table (`TRANSPORT_PRIORITY`, line 54). -/
def TRANSPORT_PRIORITY : List String :=
  ["npx", "stdio", "http", "docker"]

/-- The sort key of `get_spawn_configs` (lines 279-284):
`TRANSPORT_PRIORITY.index(t)`, and `len(TRANSPORT_PRIORITY)` for a transport
not in the table. -/
def transportPriority (t : String) : Nat :=
  match TRANSPORT_PRIORITY.indexOf? t with
  | some i => i
  | none => TRANSPORT_PRIORITY.length

/-- One spawn configuration: the dict built by `get_spawn_configs`, keyed by
its `transport` field, carrying the transport-specific parameters. -/
structure SpawnConfig where
  transport : String
  package : Option String := none
  command : Option String := none
  args : List String := []
  env : List (String × String) := []
  remoteUrl : Option String := none
  protocol : Option String := none
  image : Option String := none
deriving Repr, DecidableEq

/-- The `spawn` sub-dict of a registry package entry. -/
structure PkgSpawn where
  command : Option String := none
  args : List String := []
  env : List (String × String) := []
deriving Repr, DecidableEq

/-- A registry package entry (`raw["packages"]` element).  A missing or empty
`spawn` dict is `none` (both are falsy under `if spawn and ...`). -/
structure Package where
  spawn : Option PkgSpawn := none
  registryType : Option String := none
  identifier : Option String := none
deriving Repr, DecidableEq

/-- A remote endpoint entry (`raw["remotes"]` element). -/
structure Remote where
  url : String := ""
  type : Option String := none
deriving Repr, DecidableEq

/-- The origin-hint fields `get_spawn_configs` reads from a server dict (or
from its `raw` sub-dict). -/
structure RawData where
  packages : List Package := []
  remotes : List Remote := []
  remoteUrl : Option String := none
  image : Option String := none
deriving Repr, DecidableEq

/-- A registry record as consumed by the mcp-compiler: the identification and
metadata fields read by `process_server_with_model` plus the origin hints.
`raw = server.get("raw", server)` defaults to the server dict itself, so the
server also carries its own `RawData`-shaped fields (`own`). -/
structure ServerData where
  registryId : String := ""
  name : String := ""
  nspace : String := ""
  description : String := ""
  repoUrl : String := ""
  slug : String := ""
  source : String := ""
  origin : String := ""
  raw : Option RawData := none
  own : RawData := {}
deriving Repr, DecidableEq

/-- The dict `get_spawn_configs` reads the hints from:
`raw = server.get("raw", server)`. -/
def rawOf (s : ServerData) : RawData :=
  s.raw.getD s.own

/-- Python truthiness of an optional string: present and non-empty. -/
def truthyStr : Option String → Bool
  | none => false
  | some s => s ≠ ""

/-- Python `a or b` on optional strings (falsy `a`, i.e. missing or empty,
falls through to `b`). -/
def pyOrStr (a b : Option String) : Option String :=
  if truthyStr a then a else b

/-- Substring test on character lists (Python `p in url`). -/
def containsSub (pat : List Char) : List Char → Bool
  | [] => pat.isEmpty
  | c :: rest => pat.isPrefixOf (c :: rest) || containsSub pat rest

/-- The placeholder/loopback denylist applied to remote URLs (lines 233-235,
247-249): any of these substrings of the lowercased URL blocks the config. -/
def URL_DENYLIST : List String :=
  ["localhost", "127.0.0.1", "your-", "example.com", "0.0.0.0"]

/-- Denylist test: `any(p in url.lower() for p in [...])`. -/
def urlDenied (url : String) : Bool :=
  URL_DENYLIST.any (fun p => containsSub p.toList (url.toList.map lowerChar))

/-- Python `identifier.split("/")[-1] if "/" in identifier else identifier`
(the pypi module-name heuristic of lines 218-222). -/
def lastSlashComponent (s : String) : String :=
  if containsSub ['/'] s.toList then
    match (runsBy (fun c => c ≠ '/') s.toList).getLast? with
    | some l => String.mk l
    | none => ""
  else s

/-- The package loop of `get_spawn_configs` (lines 185-226): the first package
that matches one of the three branches produces one config and breaks. -/
def firstPackageConfig : List Package → List SpawnConfig
  | [] => []
  | pkg :: rest =>
    let sp := pkg.spawn.getD {}
    if pkg.spawn.isSome && sp.command = some "npx" then
      [{ transport := "npx",
         package := if sp.args ≠ [] then sp.args.getLast? else pkg.identifier,
         args := sp.args, env := sp.env }]
    else if pkg.registryType = some "npm" then
      [{ transport := "npx", package := pkg.identifier }]
    else if pkg.registryType = some "pypi" then
      let pkgId := pkg.identifier.getD ""
      [{ transport := "stdio", command := some "uvx",
         args := ["--from", pkgId, lastSlashComponent pkgId] }]
    else firstPackageConfig rest

/-- The remotes loop (lines 229-243): one HTTP config per remote whose URL is
non-empty and not denylisted. -/
def remoteConfigs (remotes : List Remote) : List SpawnConfig :=
  remotes.filterMap (fun r =>
    if r.url ≠ "" && !(urlDenied r.url) then
      some { transport := "http", remoteUrl := some r.url,
             protocol := some (r.type.getD "sse") }
    else none)

/-- The `remoteUrl` fallback (lines 246-257). -/
def remoteUrlConfig (s : ServerData) : List SpawnConfig :=
  match pyOrStr (rawOf s).remoteUrl s.own.remoteUrl with
  | some url =>
    if url ≠ "" && !(urlDenied url) then
      [{ transport := "http", remoteUrl := some url, protocol := some "sse" }]
    else []
  | none => []

/-- The docker branch (lines 260-267). -/
def dockerConfig (s : ServerData) : List SpawnConfig :=
  match pyOrStr (rawOf s).image s.own.image with
  | some img => [{ transport := "docker", image := some img }]
  | none => []

/-- The candidate list in derivation order, before dedup and sort. -/
def derivedConfigs (s : ServerData) : List SpawnConfig :=
  firstPackageConfig (rawOf s).packages ++ remoteConfigs (rawOf s).remotes ++
    remoteUrlConfig s ++ dockerConfig s

/-- Deduplication by transport keeping the first occurrence (lines 269-276). -/
def dedupByTransport (seen : List String) : List SpawnConfig → List SpawnConfig
  | [] => []
  | c :: rest =>
    if seen.contains c.transport then dedupByTransport seen rest
    else c :: dedupByTransport (c.transport :: seen) rest

/-- Stable insertion placing `x` after every element whose key is not greater:
the building block of a stable sort by key, matching Python's stable
`list.sort(key=...)`. -/
def insertByKey (key : α → Nat) (x : α) : List α → List α
  | [] => [x]
  | y :: ys => if key y ≤ key x then y :: insertByKey key x ys else x :: y :: ys

/-- Stable sort by a natural-number key (Python `list.sort(key=...)`): left
fold of stable insertions, so elements with equal keys keep their relative
order. -/
def stableSortByKey (key : α → Nat) (l : List α) : List α :=
  l.foldl (fun acc x => insertByKey key x acc) []

/-- Embedding of `get_spawn_configs` (lines 177-287): derive the candidate
configs from the origin hints, deduplicate by transport keeping the first
occurrence, and stable-sort by the fixed transport priority. -/
def get_spawn_configs (s : ServerData) : List SpawnConfig :=
  stableSortByKey (fun c => transportPriority c.transport)
    (dedupByTransport [] (derivedConfigs s))

/-! ## LLM invoke retry policy (`LLMService._call_llm`, llm_service.py lines
316-397)

The external boundary is `client.chat.completions.create`: each call either
returns a response (whose content, when non-empty, is fed to
`_parse_json_response`) or raises one of `RateLimitError`, `APITimeoutError`,
`APIError`, or a generic exception (connection-flavoured or not).  The
environment oracle assigns an outcome to each call the loop makes, in order;
for a returned response the oracle carries the already-parsed value, i.e. the
value of `_parse_json_response` on the content. -/

/-- Outcome of one `client.chat.completions.create` call.  `ok none` is a
response with falsy (empty) content; `ok (some p)` is a response whose content
parses to `p : Option CleanedMetadata`. -/
inductive CallOutcome where
  | ok (content : Option (Option CleanedMetadata))
  | rateLimited
  | timedOut
  | apiError
  | exn (isConnection : Bool)
deriving Repr, DecidableEq

/-- Retry constants of llm_service.py lines 24-26 (`MAX_RETRIES`,
`BASE_RETRY_DELAY`, `MAX_RETRY_DELAY`). -/
def MAX_RETRIES : Nat := 3

/-- Base retry delay in seconds. -/
def BASE_RETRY_DELAY : ℚ := 1

/-- Maximum backoff delay in seconds. -/
def MAX_RETRY_DELAY : ℚ := 10

/-- The rate-limit backoff of lines 347-350:
`min(BASE_RETRY_DELAY * 2**attempt + random.uniform(0, 1), MAX_RETRY_DELAY)`;
the jitter sample is supplied by the environment. -/
def rateLimitDelay (attempt : Nat) (jitter : ℚ) : ℚ :=
  min (BASE_RETRY_DELAY * 2 ^ attempt + jitter) MAX_RETRY_DELAY

/-- One logged `create` call: which model was used, whether it was the
post-loop fallback shot, the outcome, and the sleep performed after it
(`none` when the code does not sleep). -/
structure CallEvent where
  model : String
  isFallbackShot : Bool
  outcome : CallOutcome
  sleepSeconds : Option ℚ
deriving Repr, DecidableEq

/-- Result of the `for attempt in range(MAX_RETRIES)` loop: either an early
`return` with a value, or falling out of the loop (by exhaustion or `break`)
with the model variable's final value. -/
inductive LoopExit where
  | returned (value : Option CleanedMetadata)
  | fellThrough (model : String)
deriving Repr, DecidableEq

/-- The retry loop of `_call_llm` (lines 323-373).  `env n` is the outcome of
the n-th `create` call, `jitter n` the n-th `random.uniform(0, 1)` sample;
`attempt` counts loop iterations, `model` is the mutable model variable
(reassigned to the fallback on a connection error). -/
def callLoop (env : Nat → CallOutcome) (jitter : Nat → ℚ)
    (fallback : Option String) :
    Nat → String → List CallEvent → LoopExit × List CallEvent
  | 0, model, events => (LoopExit.fellThrough model, events)
  | fuel + 1, model, events =>
    let attempt := MAX_RETRIES - (fuel + 1)
    let o := env events.length
    match o with
    | CallOutcome.ok content =>
      let value := match content with
        | none => none
        | some p => p
      (LoopExit.returned value,
        events ++ [⟨model, false, o, none⟩])
    | CallOutcome.rateLimited =>
      let d := rateLimitDelay attempt (jitter events.length)
      callLoop env jitter fallback fuel model
        (events ++ [⟨model, false, o, some d⟩])
    | CallOutcome.timedOut =>
      let sleep := if attempt < MAX_RETRIES - 1 then some BASE_RETRY_DELAY else none
      callLoop env jitter fallback fuel model
        (events ++ [⟨model, false, o, sleep⟩])
    | CallOutcome.apiError =>
      let sleep := if attempt < MAX_RETRIES - 1 then some BASE_RETRY_DELAY else none
      callLoop env jitter fallback fuel model
        (events ++ [⟨model, false, o, sleep⟩])
    | CallOutcome.exn isConn =>
      if isConn && fallback.isSome && fallback ≠ some model then
        callLoop env jitter fallback fuel (fallback.getD model)
          (events ++ [⟨model, false, o, none⟩])
      else
        (LoopExit.fellThrough model, events ++ [⟨model, false, o, none⟩])

/-- Embedding of `_call_llm` (lines 316-397): the three-attempt loop, then —
when a fallback model is configured and distinct from the model variable's
final value — one fresh single-shot call to the fallback with every exception
swallowed.  Returns the value `_call_llm` returns together with the log of
`create` calls. -/
def call_llm (env : Nat → CallOutcome) (jitter : Nat → ℚ)
    (primary : String) (fallback : Option String) :
    Option CleanedMetadata × List CallEvent :=
  match callLoop env jitter fallback MAX_RETRIES primary [] with
  | (LoopExit.returned v, events) => (v, events)
  | (LoopExit.fellThrough model, events) =>
    match fallback with
    | some fb =>
      if fb ≠ model then
        let o := env events.length
        let value := match o with
          | CallOutcome.ok content =>
            match content with
            | none => none
            | some p => p
          | _ => none
        (value, events ++ [⟨fb, true, o, none⟩])
      else (none, events)
    | none => (none, events)

/-! ## Record processor (`process_server_with_model`, compiler.py lines
361-483)

External calls are abstracted at the boundaries the spec declares external:
`spawn_server_via_runtime` becomes an oracle from the config position to a
`SpawnResult`, and the two LLM entry points (`clean_server_with_tools`,
`clean_server_from_repo`) become oracles from the config position to an
optional `CleanedMetadata`. -/

/-- A discovered tool, as returned by the Runtime spawn call. -/
structure Tool where
  name : String := ""
  description : String := ""
deriving Repr, DecidableEq

/-- The normalized result dict of `spawn_server_via_runtime` (lines 290-358).
On success the dict carries no error keys, so `result.get("error", "")` and
`result.get("error_code", "")` read as empty strings then. -/
structure SpawnResult where
  success : Bool := false
  tools : List Tool := []
  error : String := ""
  error_code : String := ""
deriving Repr, DecidableEq

/-- Per-record environment: the responses of the external services during one
`process_server_with_model` call, indexed by the position of the config being
tried. `finalGen` is the post-loop `clean_server_from_repo` call, `now` the
wall clock read for the record's timestamp. -/
structure ProcEnv where
  spawn : Nat → SpawnResult
  richGen : Nat → Option CleanedMetadata
  credGen : Nat → Option CleanedMetadata
  finalGen : Option CleanedMetadata
  now : PyDateTime

/-- The `CompiledServer` dataclass (compiler.py lines 82-112). -/
structure CompiledServer where
  id : String := ""
  registryId : String := ""
  name : String := ""
  slug : String := ""
  description : String := ""
  tags : List String := []
  transport : String := ""
  tools : List Tool := []
  tool_count : Nat := 0
  spawn : Option SpawnConfig := none
  source : String := ""
  compiled_at : String := ""
  working_transport : String := ""
  spawn_failed : Bool := false
  vars_required : List (String × String) := []
deriving Repr, DecidableEq

/-- The `FailedServer` dataclass (compiler.py lines 115-129).  Its dataclass
default for `retryable` is `True`; `process_server_with_model` overrides it. -/
structure FailedServer where
  id : String := ""
  registryId : String := ""
  name : String := ""
  description : String := ""
  tags : List String := []
  error : String := ""
  error_code : String := ""
  transports_tried : List String := []
  failed_at : String := ""
  retryable : Bool := true
deriving Repr, DecidableEq

/-- The 4-tuple `(compiled, failed, success, msg)` returned by
`process_server_with_model`.  `msg` is only ever printed by the schedulers;
its text is reproduced up to formatting of embedded lists. -/
structure ProcResult where
  compiled : Option CompiledServer := none
  failed : Option FailedServer := none
  success : Bool := false
  msg : String := ""
deriving Repr, DecidableEq

/-- The per-config loop of `process_server_with_model` (lines 384-460) and
its post-loop failure path (lines 462-483).  `i` is the position of the
current config, `tried` the accumulated `transports_tried`, `lastErr` /
`lastCode` the running `last_error` / `last_error_code`. -/
def processConfigs (server : ServerData) (env : ProcEnv) :
    List SpawnConfig → Nat → List String → String → String → ProcResult
  | [], _, tried, lastErr, lastCode =>
    let g := env.finalGen
    let failed : FailedServer :=
      { id := server.registryId, registryId := server.registryId,
        name := match g with | some m => m.name | none => server.name,
        description := match g with | some m => m.description | none => server.description,
        tags := match g with | some m => m.tags | none => [],
        error := lastErr, error_code := lastCode,
        transports_tried := tried,
        failed_at := mcpTimestamp env.now,
        retryable := false }
    { failed := some failed, success := false,
      msg := "FAILED: " ++ lastCode }
  | config :: rest, i, tried, _, _ =>
    let tried' := tried ++ [config.transport]
    let r := env.spawn i
    let em := r.error
    let ec := r.error_code
    let vars := detect_required_vars em
    if r.success && r.tools ≠ [] && (env.richGen i).isSome then
      let m := (env.richGen i).getD {}
      let compiled : CompiledServer :=
        { id := server.registryId, registryId := server.registryId,
          name := m.name, slug := server.slug, description := m.description,
          tags := m.tags, transport := config.transport, tools := r.tools,
          tool_count := r.tools.length, spawn := some config,
          source := server.source, compiled_at := mcpTimestamp env.now,
          working_transport := config.transport, spawn_failed := false }
      { compiled := some compiled, success := true,
        msg := "SUCCESS (" ++ config.transport ++ "): " ++
          toString r.tools.length ++ " tools" }
    else if vars ≠ [] && (env.credGen i).isSome then
      let m := (env.credGen i).getD {}
      let compiled : CompiledServer :=
        { id := server.registryId, registryId := server.registryId,
          name := m.name, slug := server.slug, description := m.description,
          tags := m.tags, transport := config.transport, tools := [],
          tool_count := 0, spawn := some config, source := server.source,
          compiled_at := mcpTimestamp env.now,
          working_transport := config.transport, spawn_failed := true,
          vars_required := vars }
      { compiled := some compiled, success := true,
        msg := "CREDENTIALS (" ++ config.transport ++ ")" }
    else
      processConfigs server env rest (i + 1) tried' em ec

/-- Embedding of `process_server_with_model`: resolve the candidate configs
and walk the fallback chain. -/
def process_server_with_model (server : ServerData) (env : ProcEnv) :
    ProcResult :=
  processConfigs server env (get_spawn_configs server) 0 [] "" ""

/-! ## Shared pipeline state and phase-1 batch loop (`MCPCompiler`,
compiler.py lines 486-711) -/

/-- The `Progress` dataclass (compiler.py lines 62-79). -/
structure Progress where
  phase : Nat := 1
  processed : Nat := 0
  total : Nat := 0
  last_processed_id : String := ""
  started_at : String := ""
  updated_at : String := ""
  success_count : Nat := 0
  failed_count : Nat := 0
  retry_count : Nat := 0
deriving Repr, DecidableEq

/-- The shared mutable pipeline state: the compiled map, the failed map and
the progress counters (`self.compiled`, `self.failed`, `self.progress`). -/
structure CompilerState where
  compiled : List (String × CompiledServer) := []
  failed : List (String × FailedServer) := []
  progress : Progress := {}
deriving Repr, DecidableEq

/-- The fixed checkpoint interval of the mcp-compiler (line 49). -/
def CHECKPOINT_INTERVAL : Nat := 15

/-- Accumulator of the phase-1 `as_completed` loop: the state, the local
`checkpoint_counter`, and the flush log — each flush records the processed
count at flush time together with a snapshot of the state written to disk. -/
structure Phase1Acc where
  st : CompilerState
  counter : Nat
  flushes : List (Nat × CompilerState)
deriving Repr, DecidableEq

/-- One iteration of the phase-1 result loop (compiler.py lines 653-702).
`res = none` models `future.result()` raising: the record is only counted as
processed (lines 699-702); otherwise the maps, the counters and the
checkpoint counter are updated and a checkpoint is flushed every
`CHECKPOINT_INTERVAL` completions (lines 657-697). -/
def phase1HandleResult (acc : Phase1Acc) (registry_id : String)
    (res : Option ProcResult) : Phase1Acc :=
  match res with
  | none =>
    { acc with st.progress.processed := acc.st.progress.processed + 1 }
  | some r =>
    let st0 := acc.st
    let st1 :=
      match r.compiled with
      | some c =>
        let withMap := { st0 with compiled := dictInsert st0.compiled registry_id c }
        if r.success && c.vars_required.isEmpty then
          { withMap with progress.success_count := withMap.progress.success_count + 1 }
        else
          { withMap with progress.failed_count := withMap.progress.failed_count + 1 }
      | none => st0
    let st2 :=
      match r.failed with
      | some f =>
        { st1 with failed := dictInsert st1.failed registry_id f,
                   progress.failed_count := st1.progress.failed_count + 1 }
      | none => st1
    let st3 := { st2 with progress.processed := st2.progress.processed + 1,
                          progress.last_processed_id := registry_id }
    let counter := acc.counter + 1
    if counter ≥ CHECKPOINT_INTERVAL then
      { st := st3, counter := 0,
        flushes := acc.flushes ++ [(st3.progress.processed, st3)] }
    else
      { st := st3, counter := counter, flushes := acc.flushes }

/-- The phase-1 result loop over a completion-ordered list of
`(registry_id, result)` pairs (the `as_completed` order is an arbitrary
permutation of the submissions, so the list is quantified), followed by the
unconditional end-of-batch flush (lines 704-706). -/
def runPhase1Loop (st0 : CompilerState)
    (items : List (String × Option ProcResult)) : Phase1Acc :=
  let acc := items.foldl (fun acc it => phase1HandleResult acc it.1 it.2)
    ⟨st0, 0, []⟩
  { acc with flushes := acc.flushes ++ [(acc.st.progress.processed, acc.st)] }

/-! ## Startup, resume and record filtering (`MCPCompiler.__init__`,
`load_compiled`, `run_phase1` prep, compiler.py lines 486-609) -/

/-- The durable output documents of the mcp-compiler
(`mcpCompiled.json`, `failedServers.json`, `progress.json`); `none` models a
missing file. -/
structure OutputFiles where
  progressFile : Option Progress := none
  compiledFile : Option (List CompiledServer) := none
  failedFile : Option (List FailedServer) := none

/-- Embedding of `load_compiled` (lines 530-535): the compiled document's
`servers` array keyed by `id`. -/
def load_compiled (fs : OutputFiles) : List (String × CompiledServer) :=
  match fs.compiledFile with
  | some l => l.foldl (fun m c => dictInsert m c.id c) []
  | none => []

/-- Embedding of `MCPCompiler.__init__` (lines 486-502): the compiled map is
loaded from disk unconditionally when the file exists; the failed map always
starts empty — nothing in the mcp-compiler ever reads `failedServers.json`. -/
def mcpInitState (fs : OutputFiles) : CompilerState :=
  { compiled := load_compiled fs }

/-- Embedding of the resume branch of `run_phase1` (lines 582-586): on
resume, the progress document replaces the in-memory progress when the file
exists. -/
def mcpResumeProgress (fs : OutputFiles) (st : CompilerState) (resume : Bool) :
    CompilerState :=
  if resume then
    match fs.progressFile with
    | some p => { st with progress := p }
    | none => st
  else st

/-- Python `lst[:limit] if limit else lst` (a `None` or `0` limit leaves the
list unchanged). -/
def truthyTake (limit : Option Nat) (l : List α) : List α :=
  match limit with
  | some n => if n = 0 then l else l.take n
  | none => l

/-- Embedding of the record filtering of `run_phase1` (lines 588-609): on
resume, slice to just after the last processed id (`next(...) or 0` plus
one, so an unknown last id drops the first record); apply the limit; drop
every record whose id is already in the compiled map. -/
def mcpServersToProcess (servers : List ServerData) (st : CompilerState)
    (limit : Option Nat) (resume : Bool) : List ServerData :=
  let l1 :=
    if resume && st.progress.last_processed_id ≠ "" then
      let idx :=
        (match servers.findIdx? (fun s => s.registryId = st.progress.last_processed_id) with
         | some i => i
         | none => 0) + 1
      servers.drop idx
    else servers
  let l2 := truthyTake limit l1
  l2.filter (fun s => !((dictKeys st.compiled).contains s.registryId))

/-! ## Phase 2: retry pass (`MCPCompiler.run_phase2`, compiler.py lines
713-791) -/

/-- Embedding of the retry selection (lines 719-725): the servers whose id is
in the failed map with `failed.get("retryable", True)` truthy — the dict
produced by `FailedServer.to_dict` always carries the key, so this reads the
record's `retryable` field. -/
def phase2Select (servers : List ServerData)
    (failed : List (String × FailedServer)) : List ServerData :=
  servers.filter (fun s =>
    match dictGet failed s.registryId with
    | some f => f.retryable
    | none => false)

/-- Embedding of the optimistic removal (lines 739-742): every selected
record's entry is deleted from the failed map before dispatch. -/
def phase2RemoveFailed (st : CompilerState) (retry : List ServerData) :
    CompilerState :=
  { st with failed := retry.foldl (fun m s => dictDelete m s.registryId) st.failed }

/-- One iteration of the phase-2 result loop (lines 758-786): successes move
into the compiled map (bumping `success_count` and `retry_count` when not a
credentials-only result), repeated failures are re-inserted with `retryable`
forced to `false`; a raised `future.result()` (`res = none`) only logs. -/
def phase2HandleResult (st : CompilerState) (registry_id : String)
    (res : Option ProcResult) : CompilerState :=
  match res with
  | none => st
  | some r =>
    let st1 :=
      match r.compiled with
      | some c =>
        let withMap := { st with compiled := dictInsert st.compiled registry_id c }
        if r.success && c.vars_required.isEmpty then
          { withMap with
              progress.success_count := withMap.progress.success_count + 1,
              progress.retry_count := withMap.progress.retry_count + 1 }
        else
          { withMap with progress.failed_count := withMap.progress.failed_count + 1 }
      | none => st
    match r.failed with
    | some f =>
      let f' := { f with retryable := false }
      { st1 with failed := dictInsert st1.failed registry_id f' }
    | none => st1

/-- Embedding of `run_phase2` (lines 713-791): select the retryable failed
records, apply the limit, remove them from the failed map, process each via
`process_server_with_model` (a `none` environment models a worker
exception), and fold the results in completion order — `perm` reindexes the
retry list to model `as_completed`.  Returns the final state and the retry
list; the state after the loop is what the end-of-phase flush
(`save_compiled` / `save_failed`, lines 788-789) writes. -/
def run_phase2 (servers : List ServerData) (st : CompilerState)
    (limit : Option Nat) (envOf : String → Option ProcEnv) (perm : Nat → Nat) :
    CompilerState × List ServerData :=
  let retry := truthyTake limit (phase2Select servers st.failed)
  if retry.isEmpty then (st, [])
  else
    let st1 := phase2RemoveFailed st retry
    let items := (List.range retry.length).filterMap (fun j =>
      (retry.get? (perm j)).map (fun s =>
        (s.registryId, (envOf s.registryId).map (process_server_with_model s))))
    (items.foldl (fun st it => phase2HandleResult st it.1 it.2) st1, retry)

/-! ## Full run: phase 1 then phase 2 (`MCPCompiler.run_all`, lines 793-810) -/

/-- A full fresh run: phase 1 over the submitted records in completion order
(`p1items`; a `none` environment models a worker exception for that record),
then phase 2 over the same catalog.  Returns the phase-1 accumulator (state
and flush log) and the state after phase 2's end-of-phase flush. -/
def run_all (servers : List ServerData) (st0 : CompilerState)
    (p1items : List (ServerData × Option ProcEnv)) (limit : Option Nat)
    (envOf2 : String → Option ProcEnv) (perm2 : Nat → Nat) :
    Phase1Acc × CompilerState :=
  let p1 := runPhase1Loop st0
    (p1items.map (fun it => (it.1.registryId, it.2.map (process_server_with_model it.1))))
  let p2 := run_phase2 servers p1.st limit envOf2 perm2
  (p1, p2.1)

/-! ## Scheduler assignment (`run_phase1` lines 636-650, model-compiler
`run` lines 160-169) -/

/-- The backend table of the mcp-compiler's `LLMService` (llm_service.py
lines 177-193), by model name. -/
def MCP_BACKENDS : List String :=
  ["qwen/qwen3-32b", "nousresearch/hermes-4-70b", "minimax/minimax-m2.1"]

/-- The backend table of the model-compiler's `ToolCallingLLMService`
(model-compiler llm_service.py lines 80-90), by model name. -/
def MODEL_BACKENDS : List String :=
  ["qwen", "qwen-14b", "mistral", "gemma", "llava"]

/-- The phase-1 submission list (lines 638-641): the record at position `idx`
is paired with model slot `idx % num_models`, where `num_models` is the
number of available backends. -/
def phase1ProcessArgs (servers : List ServerData) (numModels : Nat) :
    List (ServerData × Nat) :=
  servers.enum.map (fun p => (p.2, p.1 % numModels))

/-- The assignment actually built by `run_phase1`: its `workers` parameter
(line 575) is never read; both the slot assignment and the thread-pool size
(line 646) use `len(self.backends)`. -/
def run_phase1_assignments (servers : List ServerData) (backends : List String)
    (workers : Nat) : List (ServerData × Nat) :=
  phase1ProcessArgs servers backends.length

/-- The thread-pool size of phase 1 (line 646): `max_workers=num_models`,
independent of the `workers` parameter. -/
def phase1PoolSize (backends : List String) (workers : Nat) : Nat :=
  backends.length

/-! ## The model-compiler pipeline (model-compiler/compiler.py) -/

/-- An input model record; `s.get("modelId", s.get("id"))` keys everything. -/
structure ModelRec where
  modelId : Option String := none
  id : Option String := none
  name : String := ""
  provider : String := ""
deriving Repr, DecidableEq

/-- The checkpoint/dedup key of a model record. -/
def modelKey (m : ModelRec) : Option String :=
  match m.modelId with
  | some v => some v
  | none => m.id

/-- An entry of the model-compiler's compiled or failed output documents:
a dict carrying at least the `id` key it is re-keyed by on resume. -/
structure ModelEntry where
  id : String := ""
deriving Repr, DecidableEq

/-- The `ProgressData` of the model-compiler (lines 31-38). -/
structure ModelProgress where
  total : Nat := 0
  processed : Nat := 0
  success_count : Nat := 0
  failed_count : Nat := 0
  last_processed_id : Option String := none
  started_at : Option String := none
deriving Repr, DecidableEq

/-- The in-memory state of `ModelCompiler`. -/
structure ModelCompilerState where
  compiled : List (String × ModelEntry) := []
  failed : List (String × ModelEntry) := []
  progress : ModelProgress := {}
deriving Repr, DecidableEq

/-- The durable documents of the model-compiler. -/
structure ModelFiles where
  progressFile : Option ModelProgress := none
  compiledFile : Option (List ModelEntry) := none
  failedFile : Option (List ModelEntry) := none

/-- Embedding of `ModelCompiler.load_progress` (lines 63-94): a missing
progress file leaves the state untouched (early `return False`, so neither
output document is read either); otherwise the progress counters, then the
compiled document's `models` keyed by `id`, then the failed document's
`models` keyed by `id` are all loaded. -/
def model_load_progress (fs : ModelFiles) (st : ModelCompilerState) :
    ModelCompilerState :=
  match fs.progressFile with
  | none => st
  | some p =>
    let compiled :=
      match fs.compiledFile with
      | some l => l.foldl (fun m e => dictInsert m e.id e) st.compiled
      | none => st.compiled
    let failed :=
      match fs.failedFile with
      | some l => l.foldl (fun m e => dictInsert m e.id e) st.failed
      | none => st.failed
    { compiled := compiled, failed := failed, progress := p }

/-- Embedding of the record filtering of `ModelCompiler.run` (lines 136-147):
on resume, slice to just after the last processed id; apply the limit
(`if limit is not None`, so a limit of 0 truncates here, unlike the
mcp-compiler); drop every record whose key is already in the compiled map. -/
def modelModelsToProcess (models : List ModelRec) (st : ModelCompilerState)
    (limit : Option Nat) (resume : Bool) : List ModelRec :=
  let l1 :=
    if resume && truthyStr st.progress.last_processed_id then
      let idx :=
        (match models.findIdx? (fun m => modelKey m = st.progress.last_processed_id) with
         | some i => i
         | none => 0) + 1
      models.drop idx
    else models
  let l2 :=
    match limit with
    | some n => l1.take n
    | none => l1
  l2.filter (fun m =>
    match modelKey m with
    | some k => !((dictKeys st.compiled).contains k)
    | none => true)

/-- The task list of `ModelCompiler.run` (lines 160-164): the record at
position `i` is paired with backend `backends[i % len(backends)]`, while the
`workers` flag only sizes the process pool (line 167). -/
def model_run_tasks (models : List ModelRec) (backends : List String) :
    List (ModelRec × String) :=
  models.enum.map (fun p => (p.2, ((backends.get? (p.1 % backends.length)).getD "")))

/-- The checkpoint interval of the model-compiler (line 29). -/
def MODEL_CHECKPOINT_INTERVAL : Nat := 50

/-! ## Concrete fixtures used by witnesses and counterexamples -/

/-- A record with no origin hints: `get_spawn_configs` derives nothing and
the processor degrades straight to the failure path. -/
def fixtureServerA : ServerData :=
  { registryId := "srv-a" }

/-- A second record, distinct id. -/
def fixtureServerB : ServerData :=
  { registryId := "srv-b" }

/-- A record with one healthy remote endpoint. -/
def fixtureServerHttp : ServerData :=
  { registryId := "srv-http",
    raw := some { remotes := [{ url := "https://ok.example.org/mcp" }] } }

/-- A record with an npm package, a healthy remote and a docker image: all
three of npx, http and docker derive. -/
def fixtureServerFull : ServerData :=
  { registryId := "srv-full",
    raw := some
      { packages := [{ registryType := some "npm", identifier := some "pkg-a" }],
        remotes := [{ url := "https://api.example.org/sse", type := some "streamable" }],
        image := some "ghcr.io/x/y" } }

/-- A progress document as left by an interrupted run. -/
def fixtureProgress : Progress :=
  { processed := 7, last_processed_id := "x1" }

/-- A compiled record as found in a compiled output document. -/
def fixtureCompiledRec : CompiledServer :=
  { id := "c1", registryId := "c1", name := "C One" }

/-- A failed record as found in a failed output document. -/
def fixtureFailedRec : FailedServer :=
  { id := "f1", registryId := "f1", retryable := true }

/-- On-disk output documents of the mcp-compiler with all three files
present and a non-empty failed document. -/
def fixtureFiles : OutputFiles :=
  { progressFile := some fixtureProgress,
    compiledFile := some [fixtureCompiledRec],
    failedFile := some [fixtureFailedRec] }

/-- On-disk output documents of the model-compiler. -/
def fixtureModelFiles : ModelFiles :=
  { progressFile := some { processed := 3 },
    compiledFile := some [{ id := "m1" }],
    failedFile := some [{ id := "m2" }] }

/-- An environment in which every external call fails and every generation
returns nothing. -/
def fixtureEnvFail : ProcEnv :=
  { spawn := fun _ => {}, richGen := fun _ => none, credGen := fun _ => none,
    finalGen := none, now := ⟨2026, 10, 12, 7, 30, 5, 123456⟩ }

/-- An environment in which the spawn succeeds with one tool and rich-context
generation returns valid metadata. -/
def fixtureEnvOk : ProcEnv :=
  { spawn := fun _ => { success := true, tools := [{ name := "t1" }] },
    richGen := fun _ => some { name := "B", description := "d", tags := ["x", "y"] },
    credGen := fun _ => none, finalGen := none,
    now := ⟨2026, 10, 12, 7, 30, 5, 0⟩ }

/-- Specification of the sleep `_call_llm` performs after its `i`-th `create`
call (attempt `i` of the loop): exponential backoff with jitter capped at
`MAX_RETRY_DELAY` on a rate limit, a fixed `BASE_RETRY_DELAY` on a timeout or
API error except after the last attempt, and no sleep otherwise. -/
def sleepSpec (i : Nat) (jitter : Nat → ℚ) (ev : CallEvent) : Prop :=
  (ev.outcome = CallOutcome.rateLimited →
     ev.sleepSeconds = some (rateLimitDelay i (jitter i)))
  ∧ ((ev.outcome = CallOutcome.timedOut ∨ ev.outcome = CallOutcome.apiError) →
     ev.sleepSeconds = if i < MAX_RETRIES - 1 then some BASE_RETRY_DELAY else none)
  ∧ (((∃ c, ev.outcome = CallOutcome.ok c) ∨ (∃ b, ev.outcome = CallOutcome.exn b)) →
     ev.sleepSeconds = none)

/-- Specification of the mid-batch flush positions of the phase-1 loop: from
a running processed count `p` and checkpoint counter `c`, the processed
counts at which the next `n` exception-free completions trigger a checkpoint
flush. -/
def midFlushPositions (p c : Nat) : Nat → List Nat
  | 0 => []
  | n + 1 =>
    if c + 1 ≥ CHECKPOINT_INTERVAL then
      (p + 1) :: midFlushPositions (p + 1) 0 n
    else
      midFlushPositions (p + 1) (c + 1) n

/-! # Theorems -/

/-- C3: for the error message `Server "mcp:x" requires credentials: API_KEY.
Add your key...`, `detect_required_vars` returns exactly the single mapping
`API_KEY ↦ Required: API_KEY`, even though the message contains other
uppercase tokens (pattern 1 matches and returns immediately). -/
theorem C3_credential_detection :
    detect_required_vars
        "Server \"mcp:x\" requires credentials: API_KEY. Add your key..." =
      [("API_KEY", "Required: API_KEY")] := by
  rfl

/-- C4 counterexample: the tag stage only examines the first five entries of
the `tags` list (`data["tags"][:5]`), so a response whose first five tags are
all invalid is rejected even though the full list still contains two valid
tags — the claim's "returns None exactly when fewer than 2 valid tags
remain" fails on this input. -/
theorem C4_first_five_counterexample :
    parse_json_validate "GitHub Repository Access"
        "Provides access to repositories and issues."
        ["x", "y", "z", "w", "v", "database", "search"] = none
    ∧ 2 ≤ ((["x", "y", "z", "w", "v", "database", "search"].map
        normalizeTag).filter tagIsValid).length := by
  exact ⟨by rfl, by decide⟩

/-- C4 (amended): when the name and description pass validation, the tag
stage considers only the first five entries of the tags list, normalizes each
(lowercase, whitespace-strip, truncate to 25, replace characters outside
`[a-z0-9-]` by `-`, trim `-`), drops banned and short tags, returns `none`
exactly when fewer than 2 valid tags remain among those five, and otherwise
keeps at most 4 tags. -/
theorem C4_tags_stage (name desc : String) (tags : List String) (n d : String)
    (hn : normalizeName name = some n)
    (hd : normalizeDescription desc = some d) :
    validatedTags tags = validatedTags (tags.take 5)
    ∧ (parse_json_validate name desc tags = none ↔
        (validatedTags tags).length < 2)
    ∧ (2 ≤ (validatedTags tags).length →
        parse_json_validate name desc tags =
          some ⟨n, d, (validatedTags tags).take 4⟩
        ∧ ((validatedTags tags).take 4).length ≤ 4) := by
  refine ⟨by simp [validatedTags, List.take_take], ?_, ?_⟩
  · simp only [parse_json_validate, hn, hd]
    by_cases h : (validatedTags tags).length < 2
    · simp [h]
    · simp [h]
  · intro h2
    have h : ¬ (validatedTags tags).length < 2 := by omega
    simp only [parse_json_validate, hn, hd]
    refine ⟨by simp [h], ?_⟩
    simp [List.length_take]

/-- C4 witness: a concrete valid response with three clean tags passes and
keeps them. -/
theorem C4_tags_stage_witness :
    parse_json_validate "GitHub Repository Access"
        "Provides access to repositories and issues."
        ["database", "search", "ai"] =
      some ⟨"GitHub Repository Access",
        "Provides access to repositories and issues.",
        ["database", "search", "ai"]⟩ :=
  ((C4_tags_stage "GitHub Repository Access"
      "Provides access to repositories and issues."
      ["database", "search", "ai"]
      "GitHub Repository Access" "Provides access to repositories and issues."
      (by rfl) (by rfl)).2.2 (by decide)).1

/-! ### Timestamp lemmas (C9) -/

theorem digitChar_ne_plus (m : Nat) : digitChar m ≠ '+' := by
  unfold digitChar; split <;> decide

theorem digitChar_ne_dot (m : Nat) : digitChar m ≠ '.' := by
  unfold digitChar; split <;> decide

theorem mem_natDigitsGo (c : Char) :
    ∀ fuel n, c ∈ natDigitsGo fuel n → ∃ m, c = digitChar m := by
  intro fuel
  induction fuel with
  | zero => intro n h; simp [natDigitsGo] at h
  | succ fuel ih =>
    intro n h
    simp only [natDigitsGo] at h
    split at h
    · simp at h; exact ⟨n, h⟩
    · rcases List.mem_append.mp h with h' | h'
      · exact ih _ h'
      · simp at h'; exact ⟨n % 10, h'⟩

theorem mem_padNat (c : Char) (w n : Nat) (h : c ∈ padNat w n) :
    c = '0' ∨ ∃ m, c = digitChar m := by
  rcases List.mem_append.mp h with h' | h'
  · exact Or.inl (List.eq_of_mem_replicate h')
  · exact Or.inr (mem_natDigitsGo c _ _ h')

theorem plus_notMem_padNat (w n : Nat) : '+' ∉ padNat w n := by
  intro h
  rcases mem_padNat _ _ _ h with h' | ⟨m, h'⟩
  · exact absurd h' (by decide)
  · exact digitChar_ne_plus m h'.symm

theorem dot_notMem_padNat (w n : Nat) : '.' ∉ padNat w n := by
  intro h
  rcases mem_padNat _ _ _ h with h' | ⟨m, h'⟩
  · exact absurd h' (by decide)
  · exact digitChar_ne_dot m h'.symm

theorem plus_notMem_isoformatNaive (d : PyDateTime) :
    '+' ∉ isoformatNaive d := by
  by_cases hz : d.microsecond = 0 <;>
    simp +decide [isoformatNaive, hz, plus_notMem_padNat]

theorem dot_mem_isoformatNaive (d : PyDateTime) :
    '.' ∈ isoformatNaive d ↔ d.microsecond ≠ 0 := by
  by_cases hz : d.microsecond = 0 <;>
    simp +decide [isoformatNaive, hz, dot_notMem_padNat]

theorem pyReplaceGo_nil (p : Char) (ps rep : List Char) (fuel : Nat) :
    pyReplaceGo p ps rep fuel [] = [] := by
  cases fuel <;> rfl

theorem isPrefixOf_self_true (l : List Char) : l.isPrefixOf l = true := by
  induction l with
  | nil => rfl
  | cons c t ih => simp [List.isPrefixOf, ih]

theorem isPrefixOf_cons_of_ne (p c : Char) (ps t : List Char) (h : p ≠ c) :
    ((p :: ps).isPrefixOf (c :: t)) = false := by
  simp [List.isPrefixOf, h]

theorem pyReplaceGo_tail_pattern (p : Char) (ps rep : List Char) :
    ∀ (s : List Char) (fuel : Nat), s.length + ps.length + 1 ≤ fuel →
      p ∉ s →
      pyReplaceGo p ps rep fuel (s ++ p :: ps) = s ++ rep := by
  intro s
  induction s with
  | nil =>
    intro fuel hf _
    match fuel, hf with
    | fuel + 1, _ =>
      simp only [List.nil_append, pyReplaceGo, isPrefixOf_self_true, if_pos]
      have hdrop : ((p :: ps).drop (ps.length + 1)) = [] := by
        simp [List.drop_succ_cons]
      rw [hdrop, pyReplaceGo_nil]
      simp
  | cons c s' ih =>
    intro fuel hf hmem
    match fuel, hf with
    | fuel + 1, hf =>
      have hne : p ≠ c := fun h => hmem (h ▸ List.mem_cons_self c s')
      rw [List.cons_append]
      show (if ((p :: ps).isPrefixOf (c :: (s' ++ p :: ps))) = true then
          rep ++ pyReplaceGo p ps rep fuel ((c :: (s' ++ p :: ps)).drop (ps.length + 1))
        else c :: pyReplaceGo p ps rep fuel (s' ++ p :: ps)) = (c :: s') ++ rep
      rw [isPrefixOf_cons_of_ne p c ps _ hne]
      simp only [Bool.false_eq_true, if_false, List.cons_append,
        List.cons.injEq, true_and]
      have hf' : s'.length + ps.length + 1 ≤ fuel := by
        simp only [List.length_cons] at hf; omega
      exact ih fuel hf' (fun h => hmem (List.mem_cons_of_mem c h))

theorem mcpTimestampChars_eq (d : PyDateTime) :
    mcpTimestampChars d = isoformatNaive d ++ ['Z'] := by
  have hlit : ("+00:00".toList) = '+' :: "00:00".toList := by decide
  have haw : isoformatAware d = isoformatNaive d ++ '+' :: "00:00".toList := by
    rw [isoformatAware, hlit]
  have h1 : mcpTimestampChars d
      = pyReplaceGo '+' "00:00".toList "Z".toList (isoformatAware d).length
          (isoformatAware d) := rfl
  have hfuel : (isoformatAware d).length =
      (isoformatNaive d).length + ("00:00".toList).length + 1 := by
    rw [haw]; simp [List.length_append]
  rw [h1, hfuel, haw]
  have hz : ("Z".toList) = ['Z'] := by decide
  rw [← hz]
  exact pyReplaceGo_tail_pattern '+' "00:00".toList "Z".toList
    (isoformatNaive d) _ (le_refl _) (plus_notMem_isoformatNaive d)

theorem modelTimestampChars_eq (d : PyDateTime) :
    modelTimestampChars d = isoformatNaive d ++ ['Z'] := by
  rw [modelTimestampChars]
  rfl

/-- C9 counterexample: at a wall-clock instant with a non-zero microsecond
field both pipelines write the full microsecond precision — sub-second
precision is NOT stripped (the claim's "millisecond precision stripped"
fails on any such instant). -/
theorem C9_subsecond_counterexample :
    mcpTimestamp ⟨2026, 10, 12, 7, 30, 5, 123456⟩ =
      "2026-10-12T07:30:05.123456Z"
    ∧ modelTimestamp ⟨2026, 10, 12, 7, 30, 5, 123456⟩ =
      "2026-10-12T07:30:05.123456Z"
    ∧ '.' ∈ mcpTimestampChars ⟨2026, 10, 12, 7, 30, 5, 123456⟩ := by
  exact ⟨by rfl, by rfl, by decide⟩

/-- C9 (amended): every `compiled_at` / `failed_at` timestamp either pipeline
writes is an ISO-8601 UTC instant with a `'Z'` suffix, but sub-second
precision is retained, not stripped: the fractional seconds part appears
exactly when the instant's microsecond field is non-zero (Python `isoformat`
omits it only when the microsecond is exactly 0). -/
theorem C9_timestamp_format (d : PyDateTime) :
    (mcpTimestampChars d).getLast? = some 'Z'
    ∧ ('.' ∈ mcpTimestampChars d ↔ d.microsecond ≠ 0)
    ∧ (modelTimestampChars d).getLast? = some 'Z'
    ∧ ('.' ∈ modelTimestampChars d ↔ d.microsecond ≠ 0) := by
  rw [mcpTimestampChars_eq, modelTimestampChars_eq]
  refine ⟨?_, ?_, ?_, ?_⟩ <;>
    first
      | exact List.getLast?_concat _
      | simp +decide [List.mem_append, dot_mem_isoformatNaive]

/-! ### Scheduler assignment (C7) -/

/-- C7 counterexample: with a configured worker count of 5 and the three
available backends, the record at position 3 is assigned slot `3 % 3 = 0`,
not `3 % 5 = 3` — the assignment modulus is the number of backends, and the
`workers` parameter of `run_phase1` is ignored. -/
theorem C7_workers_counterexample :
    ((run_phase1_assignments
        [{ registryId := "s0" }, { registryId := "s1" },
         { registryId := "s2" }, { registryId := "s3" }]
        MCP_BACKENDS 5).map Prod.snd) = [0, 1, 2, 0]
    ∧ (3 : Nat) % 5 = 3 ∧ (0 : Nat) ≠ 3 % 5 := by
  exact ⟨by decide, by decide, by decide⟩

/-- C7 (amended): the record at 0-based position `k` of the filtered batch is
assigned backend slot `k % B` where `B` is the number of available backends —
not the configured worker count, which the mcp-compiler ignores entirely (its
thread pool is also sized `B`); the model-compiler likewise assigns backend
`backends[k % B]` while its `workers` flag only sizes the process pool. -/
theorem C7_round_robin_by_backends (servers : List ServerData)
    (backends : List String) (workers k : Nat) (models : List ModelRec) :
    (run_phase1_assignments servers backends workers)[k]?
      = (servers[k]?).map (fun s => (s, k % backends.length))
    ∧ phase1PoolSize backends workers = backends.length
    ∧ (model_run_tasks models backends)[k]?
      = (models[k]?).map
          (fun m => (m, ((backends.get? (k % backends.length)).getD ""))) := by
  refine ⟨?_, rfl, ?_⟩
  · simp only [run_phase1_assignments, phase1ProcessArgs, List.getElem?_map,
      List.getElem?_enum]
    cases servers[k]? <;> rfl
  · simp only [model_run_tasks, List.getElem?_map, List.getElem?_enum]
    cases models[k]? <;> rfl

/-! ### Checkpoint cadence (C8) -/

theorem phase1Handle_some_spec (acc : Phase1Acc) (id : String) (r : ProcResult) :
    ((phase1HandleResult acc id (some r)).st.progress.processed
        = acc.st.progress.processed + 1)
    ∧ ((phase1HandleResult acc id (some r)).counter
        = if acc.counter + 1 ≥ CHECKPOINT_INTERVAL then 0 else acc.counter + 1)
    ∧ ((phase1HandleResult acc id (some r)).flushes.map Prod.fst
        = if acc.counter + 1 ≥ CHECKPOINT_INTERVAL
          then acc.flushes.map Prod.fst ++ [acc.st.progress.processed + 1]
          else acc.flushes.map Prod.fst) := by
  rcases r with ⟨c?, f?, succ, msg⟩
  rcases c? with _ | c <;> rcases f? with _ | f <;>
    simp only [phase1HandleResult] <;> split_ifs <;> simp_all

theorem phase1_foldl_flush_spec :
    ∀ (items : List (String × Option ProcResult)) (acc : Phase1Acc),
      (∀ it ∈ items, it.2.isSome) →
      ((items.foldl (fun a it => phase1HandleResult a it.1 it.2) acc).st.progress.processed
          = acc.st.progress.processed + items.length)
      ∧ ((items.foldl (fun a it => phase1HandleResult a it.1 it.2) acc).flushes.map Prod.fst
          = acc.flushes.map Prod.fst ++
              midFlushPositions acc.st.progress.processed acc.counter items.length) := by
  intro items
  induction items with
  | nil => intro acc _; simp [midFlushPositions]
  | cons it rest ih =>
    intro acc h
    obtain ⟨r, hr⟩ := Option.isSome_iff_exists.mp
      (h it (List.mem_cons_self it rest))
    rw [List.foldl_cons, hr]
    have hstep := phase1Handle_some_spec acc it.1 r
    have ihres := ih (phase1HandleResult acc it.1 (some r))
      (fun x hx => h x (List.mem_cons_of_mem it hx))
    constructor
    · rw [ihres.1, hstep.1, List.length_cons]; omega
    · rw [ihres.2, hstep.2.2, hstep.2.1, hstep.1, List.length_cons]
      by_cases hif : acc.counter + 1 ≥ CHECKPOINT_INTERVAL
      · rw [if_pos hif, if_pos hif]
        show _ = acc.flushes.map Prod.fst ++
          midFlushPositions acc.st.progress.processed acc.counter (rest.length + 1)
        rw [show midFlushPositions acc.st.progress.processed acc.counter (rest.length + 1)
            = (acc.st.progress.processed + 1) ::
              midFlushPositions (acc.st.progress.processed + 1) 0 rest.length by
          rw [midFlushPositions, if_pos hif]]
        simp
      · rw [if_neg hif, if_neg hif]
        show _ = acc.flushes.map Prod.fst ++
          midFlushPositions acc.st.progress.processed acc.counter (rest.length + 1)
        rw [show midFlushPositions acc.st.progress.processed acc.counter (rest.length + 1)
            = midFlushPositions (acc.st.progress.processed + 1) (acc.counter + 1)
                rest.length by
          rw [midFlushPositions, if_neg hif]]

/-- C8: a batch of 37 exception-free completions with the fixed checkpoint
interval of 15 flushes the three documents exactly twice mid-batch — after
the 15th and the 30th completion — plus once unconditionally at batch end
(after the 37th): the flush log reads `[15, 30, 37]`.  Each logged flush
snapshots the full state (progress, compiled map, failed map), mirroring the
consecutive `save_progress`/`save_compiled`/`save_failed` calls. -/
theorem C8_checkpoint_cadence (items : List (String × Option ProcResult))
    (h37 : items.length = 37) (hsome : ∀ it ∈ items, it.2.isSome) :
    (runPhase1Loop {} items).flushes.map Prod.fst = [15, 30, 37] := by
  have h := phase1_foldl_flush_spec items ⟨{}, 0, []⟩ hsome
  simp only [runPhase1Loop, List.map_append]
  rw [h.2, h.1, h37]
  rfl

/-- C8 witness: a concrete batch of 37 completions. -/
theorem C8_checkpoint_cadence_witness :
    (runPhase1Loop {}
        (List.replicate 37 ("id", (some ({} : ProcResult))))).flushes.map
      Prod.fst = [15, 30, 37] := by
  refine C8_checkpoint_cadence _ (by simp) ?_
  intro it hit
  rw [List.eq_of_mem_replicate hit]
  rfl

/-! ### Stable sort and dedup lemmas (C6) -/

theorem insertByKey_perm (key : α → Nat) (x : α) (l : List α) :
    List.Perm (insertByKey key x l) (x :: l) := by
  induction l with
  | nil => rfl
  | cons y ys ih =>
    simp only [insertByKey]
    split
    · exact ((ih.cons y).trans (List.Perm.swap x y ys))
    · rfl

theorem insertByKey_pairwise (key : α → Nat) (x : α) (l : List α)
    (h : l.Pairwise (fun a b => key a ≤ key b)) :
    (insertByKey key x l).Pairwise (fun a b => key a ≤ key b) := by
  induction l with
  | nil => simp [insertByKey]
  | cons y ys ih =>
    rcases List.pairwise_cons.mp h with ⟨hy, hys⟩
    simp only [insertByKey]
    split
    · refine List.pairwise_cons.mpr ⟨?_, ih hys⟩
      intro z hz
      rcases List.mem_cons.mp ((insertByKey_perm key x ys).mem_iff.mp hz) with
        hz' | hz'
      · subst hz'; assumption
      · exact hy z hz'
    · refine List.pairwise_cons.mpr ⟨?_, h⟩
      intro z hz
      rcases List.mem_cons.mp hz with hz' | hz'
      · subst hz'; omega
      · exact le_trans (by omega) (hy z hz')

theorem stableSortByKey_foldl_pairwise (key : α → Nat) :
    ∀ (l acc : List α), acc.Pairwise (fun a b => key a ≤ key b) →
      (l.foldl (fun a x => insertByKey key x a) acc).Pairwise
        (fun a b => key a ≤ key b) := by
  intro l
  induction l with
  | nil => intro acc h; exact h
  | cons x xs ih =>
    intro acc h
    exact ih (insertByKey key x acc) (insertByKey_pairwise key x acc h)

theorem stableSortByKey_pairwise (key : α → Nat) (l : List α) :
    (stableSortByKey key l).Pairwise (fun a b => key a ≤ key b) :=
  stableSortByKey_foldl_pairwise key l [] (List.Pairwise.nil)

theorem insertByKey_eq_append (key : α → Nat) (x : α) (l : List α)
    (h : ∀ y ∈ l, key y ≤ key x) :
    insertByKey key x l = l ++ [x] := by
  induction l with
  | nil => rfl
  | cons y ys ih =>
    simp only [insertByKey]
    rw [if_pos (h y (List.mem_cons_self y ys))]
    rw [ih (fun z hz => h z (List.mem_cons_of_mem y hz))]
    rfl

theorem stableSortByKey_sorted_id (key : α → Nat) :
    ∀ (l acc : List α),
      (acc ++ l).Pairwise (fun a b => key a ≤ key b) →
      l.foldl (fun a x => insertByKey key x a) acc = acc ++ l := by
  intro l
  induction l with
  | nil => intro acc _; simp
  | cons x xs ih =>
    intro acc h
    have hle : ∀ y ∈ acc, key y ≤ key x := by
      intro y hy
      have := (List.pairwise_append.mp h).2.2 y hy x (List.mem_cons_self x xs)
      exact this
    rw [List.foldl_cons, insertByKey_eq_append key x acc hle]
    have h' : ((acc ++ [x]) ++ xs).Pairwise (fun a b => key a ≤ key b) := by
      simpa using h
    rw [ih (acc ++ [x]) h']
    simp

theorem insertByKey_filter_eq (key : α → Nat) (k : Nat) (x : α) (l : List α)
    (hl : l.Pairwise (fun a b => key a ≤ key b)) (hx : key x = k) :
    (insertByKey key x l).filter (fun y => key y == k)
      = l.filter (fun y => key y == k) ++ [x] := by
  induction l with
  | nil => simp [insertByKey, hx]
  | cons y ys ih =>
    rcases List.pairwise_cons.mp hl with ⟨hy, hys⟩
    simp only [insertByKey]
    split
    · rw [List.filter_cons, List.filter_cons]
      split
      · rw [ih hys]; rfl
      · exact ih hys
    · have hky : ¬ key y ≤ key x := by assumption
      have hyk : (key y == k) = false := by
        rw [beq_eq_false_iff_ne]
        omega
      have hall : ∀ z ∈ y :: ys, (key z == k) = false := by
        intro z hz
        rw [beq_eq_false_iff_ne]
        rcases List.mem_cons.mp hz with hz' | hz'
        · subst hz'; omega
        · have := hy z hz'; omega
      have hnil : (y :: ys).filter (fun z => key z == k) = [] := by
        refine List.filter_eq_nil_iff.mpr ?_
        intro z hz
        simp only [Bool.not_eq_true]
        exact hall z hz
      rw [List.filter_cons_of_pos (by simp [hx]), hnil]
      rfl

theorem insertByKey_filter_ne (key : α → Nat) (k : Nat) (x : α) (l : List α)
    (hx : key x ≠ k) :
    (insertByKey key x l).filter (fun y => key y == k)
      = l.filter (fun y => key y == k) := by
  induction l with
  | nil => simp [insertByKey, beq_eq_false_iff_ne, hx]
  | cons y ys ih =>
    simp only [insertByKey]
    split
    · rw [List.filter_cons, List.filter_cons]
      split
      · rw [ih]
      · exact ih
    · rw [List.filter_cons_of_neg (by simp [hx])]

theorem stableSortByKey_filter (key : α → Nat) (k : Nat) :
    ∀ (l acc : List α), acc.Pairwise (fun a b => key a ≤ key b) →
      (l.foldl (fun a x => insertByKey key x a) acc).filter (fun y => key y == k)
        = acc.filter (fun y => key y == k) ++ l.filter (fun y => key y == k) := by
  intro l
  induction l with
  | nil => intro acc _; simp
  | cons x xs ih =>
    intro acc hacc
    rw [List.foldl_cons,
      ih (insertByKey key x acc) (insertByKey_pairwise key x acc hacc)]
    by_cases hx : key x = k
    · rw [insertByKey_filter_eq key k x acc hacc hx,
        List.filter_cons_of_pos (by simp [hx])]
      simp
    · rw [insertByKey_filter_ne key k x acc hx,
        List.filter_cons_of_neg (by simp [hx])]

theorem dedupByTransport_sublist (seen : List String) (l : List SpawnConfig) :
    List.Sublist (dedupByTransport seen l) l := by
  induction l generalizing seen with
  | nil => simp [dedupByTransport]
  | cons c rest ih =>
    simp only [dedupByTransport]
    split
    · exact List.Sublist.cons c (ih seen)
    · exact List.Sublist.cons₂ c (ih (c.transport :: seen))

theorem dedupByTransport_not_seen (seen : List String) (l : List SpawnConfig) :
    ∀ c ∈ dedupByTransport seen l, c.transport ∉ seen := by
  induction l generalizing seen with
  | nil => intro c hc; simp [dedupByTransport] at hc
  | cons x rest ih =>
    intro c hc
    simp only [dedupByTransport] at hc
    split at hc
    · exact ih seen c hc
    · rcases List.mem_cons.mp hc with hc' | hc'
      · subst hc'
        intro hmem
        have hcond : ¬ (seen.contains c.transport = true) := by assumption
        exact hcond (by simpa using hmem)
      · have hns := ih (x.transport :: seen) c hc'
        intro hmem
        exact hns (List.mem_cons_of_mem _ hmem)

theorem dedupByTransport_nodup (seen : List String) (l : List SpawnConfig) :
    ((dedupByTransport seen l).map (fun c => c.transport)).Nodup := by
  induction l generalizing seen with
  | nil => simp [dedupByTransport]
  | cons x rest ih =>
    simp only [dedupByTransport]
    split
    · exact ih seen
    · simp only [List.map_cons, List.nodup_cons]
      refine ⟨?_, ih (x.transport :: seen)⟩
      intro hmem
      rcases List.mem_map.mp hmem with ⟨c, hc, hct⟩
      have := dedupByTransport_not_seen (x.transport :: seen) rest c hc
      exact this (by simp [hct])

theorem dedupByTransport_find? (seen : List String) (l : List SpawnConfig) :
    ∀ c ∈ dedupByTransport seen l,
      l.find? (fun x => x.transport == c.transport) = some c := by
  induction l generalizing seen with
  | nil => intro c hc; simp [dedupByTransport] at hc
  | cons x rest ih =>
    intro c hc
    simp only [dedupByTransport] at hc
    by_cases hx : x.transport ∈ seen
    · rw [if_pos (by simpa using hx)] at hc
      have hcn := dedupByTransport_not_seen seen rest c hc
      have hne : (x.transport == c.transport) = false := by
        rw [beq_eq_false_iff_ne]
        intro he
        exact hcn (he ▸ hx)
      rw [List.find?_cons_of_neg _ (by simp only [hne]; simp)]
      exact ih seen c hc
    · rw [if_neg (by simpa using hx)] at hc
      rcases List.mem_cons.mp hc with hc' | hc'
      · subst hc'
        rw [List.find?_cons_of_pos _ (by simp)]
      · have hcn := dedupByTransport_not_seen (x.transport :: seen) rest c hc'
        have hne : (x.transport == c.transport) = false := by
          rw [beq_eq_false_iff_ne]
          intro he
          exact hcn (by simp [he])
        rw [List.find?_cons_of_neg _ (by simp only [hne]; simp)]
        exact ih (x.transport :: seen) c hc'

theorem dedupByTransport_covers (seen : List String) (l : List SpawnConfig) :
    ∀ x ∈ l, x.transport ∉ seen →
      ∃ c ∈ dedupByTransport seen l, c.transport = x.transport := by
  induction l generalizing seen with
  | nil => intro x hx; simp at hx
  | cons y rest ih =>
    intro x hx hns
    simp only [dedupByTransport]
    by_cases hy : y.transport ∈ seen
    · rw [if_pos (by simpa using hy)]
      rcases List.mem_cons.mp hx with hx' | hx'
      · subst hx'; exact absurd hy hns
      · exact ih seen x hx' hns
    · rw [if_neg (by simpa using hy)]
      rcases List.mem_cons.mp hx with hx' | hx'
      · subst hx'
        exact ⟨x, List.mem_cons_self x _, rfl⟩
      · by_cases hxy : x.transport = y.transport
        · exact ⟨y, List.mem_cons_self y _, hxy.symm⟩
        · have hns' : x.transport ∉ (y.transport :: seen) := by
            intro h
            rcases List.mem_cons.mp h with h' | h'
            · exact hxy h'
            · exact hns h'
          rcases ih (y.transport :: seen) x hx' hns' with ⟨c, hc, hct⟩
          exact ⟨c, List.mem_cons_of_mem y hc, hct⟩

theorem pairwise_of_length_le_one (R : α → α → Prop) (l : List α)
    (h : l.length ≤ 1) : l.Pairwise R := by
  match l with
  | [] => exact List.Pairwise.nil
  | [x] => simp
  | x :: y :: r => simp at h

theorem firstPackageConfig_key (pkgs : List Package) :
    ∀ c ∈ firstPackageConfig pkgs, transportPriority c.transport ≤ 1 := by
  induction pkgs with
  | nil => intro c hc; simp [firstPackageConfig] at hc
  | cons pkg rest ih =>
    intro c hc
    simp only [firstPackageConfig] at hc
    split at hc
    · simp at hc; subst hc
      exact (by decide : transportPriority "npx" ≤ 1)
    · split at hc
      · simp at hc; subst hc
        exact (by decide : transportPriority "npx" ≤ 1)
      · split at hc
        · simp at hc; subst hc
          exact (by decide : transportPriority "stdio" ≤ 1)
        · exact ih c hc

theorem firstPackageConfig_length (pkgs : List Package) :
    (firstPackageConfig pkgs).length ≤ 1 := by
  induction pkgs with
  | nil => simp [firstPackageConfig]
  | cons pkg rest ih =>
    simp only [firstPackageConfig]
    split
    · simp
    · split
      · simp
      · split
        · simp
        · exact ih

theorem remoteConfigs_key (rs : List Remote) :
    ∀ c ∈ remoteConfigs rs, transportPriority c.transport = 2 := by
  intro c hc
  simp only [remoteConfigs, List.mem_filterMap] at hc
  obtain ⟨r, _, hr⟩ := hc
  split at hr
  · injection hr with h; subst h
    exact (by decide : transportPriority "http" = 2)
  · exact absurd hr (by simp)

theorem remoteUrlConfig_key (s : ServerData) :
    ∀ c ∈ remoteUrlConfig s, transportPriority c.transport = 2 := by
  intro c hc
  simp only [remoteUrlConfig] at hc
  split at hc
  · split at hc
    · simp at hc; subst hc
      exact (by decide : transportPriority "http" = 2)
    · simp at hc
  · simp at hc

theorem dockerConfig_key (s : ServerData) :
    ∀ c ∈ dockerConfig s, transportPriority c.transport = 3 := by
  intro c hc
  simp only [dockerConfig] at hc
  split at hc
  · simp at hc; subst hc
    exact (by decide : transportPriority "docker" = 3)
  · simp at hc

theorem derivedConfigs_pairwise (s : ServerData) :
    (derivedConfigs s).Pairwise
      (fun a b => transportPriority a.transport ≤ transportPriority b.transport) := by
  have hA := firstPackageConfig_key (rawOf s).packages
  have hB := remoteConfigs_key (rawOf s).remotes
  have hC := remoteUrlConfig_key s
  have hD := dockerConfig_key s
  refine List.pairwise_append.mpr ⟨?_, ?_, ?_⟩
  · refine List.pairwise_append.mpr ⟨?_, ?_, ?_⟩
    · refine List.pairwise_append.mpr ⟨?_, ?_, ?_⟩
      · exact pairwise_of_length_le_one _ _ (firstPackageConfig_length _)
      · exact List.pairwise_of_forall_mem_list
          (fun a ha b hb => by rw [hB a ha, hB b hb])
      · intro x hx y hy
        have := hA x hx
        rw [hB y hy]
        omega
    · exact List.pairwise_of_forall_mem_list
        (fun a ha b hb => by rw [hC a ha, hC b hb])
    · intro x hx y hy
      rw [hC y hy]
      rcases List.mem_append.mp hx with hx' | hx'
      · have := hA x hx'; omega
      · rw [hB x hx']
  · exact List.pairwise_of_forall_mem_list
      (fun a ha b hb => by rw [hD a ha, hD b hb])
  · intro x hx y hy
    rw [hD y hy]
    rcases List.mem_append.mp hx with hx' | hx'
    · rcases List.mem_append.mp hx' with hx'' | hx''
      · have := hA x hx''; omega
      · rw [hB x hx'']; omega
    · rw [hC x hx']; omega

theorem get_spawn_configs_eq_dedup (s : ServerData) :
    get_spawn_configs s = dedupByTransport [] (derivedConfigs s) := by
  have hpw : (dedupByTransport [] (derivedConfigs s)).Pairwise
      (fun a b => transportPriority a.transport ≤ transportPriority b.transport) :=
    (derivedConfigs_pairwise s).sublist (dedupByTransport_sublist [] _)
  show stableSortByKey (fun c => transportPriority c.transport)
    (dedupByTransport [] (derivedConfigs s)) = _
  unfold stableSortByKey
  have := stableSortByKey_sorted_id (fun c => transportPriority c.transport)
    (dedupByTransport [] (derivedConfigs s)) [] (by simpa using hpw)
  simpa using this

/-- C6: `get_spawn_configs` deduplicates the derived candidate configs by
transport kind keeping the first occurrence (each returned config is exactly
what `find?` locates first in the derivation order, kinds are pairwise
distinct, and every derived kind is represented), and returns them sorted by
the fixed priority table npx, stdio, http, docker; the sort itself is the
stable insertion of Python `list.sort(key=...)`: on any config list it sorts
by the priority key (unknown kinds carry key 4 and therefore land after all
known kinds) and preserves the relative order of configs with equal key — in
particular among unknown kinds. -/
theorem C6_resolve_priority_dedup (s : ServerData) (l : List SpawnConfig)
    (k : Nat) :
    ((get_spawn_configs s).map (fun c => c.transport)).Nodup
    ∧ (get_spawn_configs s).Pairwise
        (fun a b => transportPriority a.transport ≤ transportPriority b.transport)
    ∧ (∀ c ∈ get_spawn_configs s,
        (derivedConfigs s).find? (fun x => x.transport == c.transport) = some c)
    ∧ (∀ x ∈ derivedConfigs s,
        ∃ c ∈ get_spawn_configs s, c.transport = x.transport)
    ∧ (stableSortByKey (fun c => transportPriority c.transport) l).Pairwise
        (fun a b => transportPriority a.transport ≤ transportPriority b.transport)
    ∧ (stableSortByKey (fun c => transportPriority c.transport) l).filter
        (fun c => transportPriority c.transport == k)
      = l.filter (fun c => transportPriority c.transport == k) := by
  rw [get_spawn_configs_eq_dedup]
  refine ⟨dedupByTransport_nodup [] _, ?_, dedupByTransport_find? [] _, ?_, ?_, ?_⟩
  · exact (derivedConfigs_pairwise s).sublist (dedupByTransport_sublist [] _)
  · intro x hx
    exact dedupByTransport_covers [] (derivedConfigs s) x hx (by simp)
  · exact stableSortByKey_pairwise _ l
  · unfold stableSortByKey
    have := stableSortByKey_filter (fun c => transportPriority c.transport) k l
      [] List.Pairwise.nil
    simpa using this

/-- C6 witness: for a record deriving npx, http and docker candidates, the
docker config kept by `resolve` is the first docker-kind config of the
derivation. -/
theorem C6_resolve_priority_dedup_witness :
    (derivedConfigs fixtureServerFull).find?
        (fun x => x.transport == "docker")
      = some { transport := "docker", image := some "ghcr.io/x/y" } := by
  have h := (C6_resolve_priority_dedup fixtureServerFull [] 0).2.2.1
    { transport := "docker", image := some "ghcr.io/x/y" } (by decide)
  simpa using h

/-! ### LLM retry policy lemmas (C5) -/

theorem get?_append_singleton (l : List α) (a x : α) (i : Nat)
    (h : (l ++ [a]).get? i = some x) :
    l.get? i = some x ∨ (i = l.length ∧ x = a) := by
  rcases Nat.lt_trichotomy i l.length with hi | hi | hi
  · left
    rw [List.get?_append hi] at h
    exact h
  · right
    subst hi
    rw [List.get?_concat_length] at h
    exact ⟨rfl, (Option.some.injEq _ _).mp h.symm⟩
  · exfalso
    rw [List.get?_eq_none.mpr (by simp; omega)] at h
    exact Option.noConfusion h

theorem callLoop_spec (env : Nat → CallOutcome) (jitter : Nat → ℚ)
    (fb : Option String) :
    ∀ (fuel : Nat) (model : String) (events : List CallEvent),
      events.length + fuel = MAX_RETRIES →
      ((callLoop env jitter fb fuel model events).2.length ≤ MAX_RETRIES)
      ∧ (∃ new, (callLoop env jitter fb fuel model events).2 = events ++ new
          ∧ (∀ ev ∈ new, ev.isFallbackShot = false))
      ∧ (∀ i ev, ((callLoop env jitter fb fuel model events).2.get? i = some ev) →
          events.get? i = some ev ∨
            (events.length ≤ i ∧ ev.isFallbackShot = false ∧ sleepSpec i jitter ev))
      ∧ ((∀ n c, env n ≠ CallOutcome.ok c) →
          ∃ m, (callLoop env jitter fb fuel model events).1 = LoopExit.fellThrough m) := by
  intro fuel
  induction fuel with
  | zero =>
    intro model events hlen
    refine ⟨by simp [callLoop]; omega, ⟨[], by simp [callLoop], by simp⟩, ?_, ?_⟩
    · intro i ev h
      exact Or.inl h
    · intro _
      exact ⟨model, rfl⟩
  | succ fuel ih =>
    intro model events hlen
    have hatt : MAX_RETRIES - (fuel + 1) = events.length := by omega
    cases ho : env events.length with
    | ok c =>
      have heq : callLoop env jitter fb (fuel + 1) model events =
          (LoopExit.returned (match c with | none => none | some p => p),
            events ++ [⟨model, false, CallOutcome.ok c, none⟩]) := by
        cases c <;> simp [callLoop, ho]
      refine ⟨?_, ⟨[⟨model, false, CallOutcome.ok c, none⟩], by rw [heq], by simp⟩,
        ?_, ?_⟩
      · rw [heq]; simp; omega
      · intro i ev h
        rw [heq] at h
        rcases get?_append_singleton _ _ _ _ h with h' | ⟨hi, hev⟩
        · exact Or.inl h'
        · subst hev
          refine Or.inr ⟨by omega, rfl, ?_, ?_, ?_⟩
          · intro hout; exact absurd hout (by simp)
          · intro hout; rcases hout with hout | hout <;> exact absurd hout (by simp)
          · intro _; rfl
      · intro hno
        exact absurd ho (hno _ c)
    | rateLimited =>
      have heq : callLoop env jitter fb (fuel + 1) model events =
          callLoop env jitter fb fuel model
            (events ++ [⟨model, false, CallOutcome.rateLimited,
              some (rateLimitDelay events.length (jitter events.length))⟩]) := by
        simp only [callLoop, ho]
        rw [hatt]
      set ev0 : CallEvent := ⟨model, false, CallOutcome.rateLimited,
        some (rateLimitDelay events.length (jitter events.length))⟩ with hev0
      have hlen' : (events ++ [ev0]).length + fuel = MAX_RETRIES := by
        simp; omega
      obtain ⟨ih1, ⟨new, hnew, hnewf⟩, ih3, ih4⟩ := ih model (events ++ [ev0]) hlen'
      refine ⟨by rw [heq]; exact ih1,
        ⟨ev0 :: new, by rw [heq, hnew]; simp, ?_⟩, ?_, ?_⟩
      · intro ev hev
        rcases List.mem_cons.mp hev with hev' | hev'
        · subst hev'; rfl
        · exact hnewf ev hev'
      · intro i ev h
        rw [heq] at h
        rcases ih3 i ev h with h' | ⟨hi, hf, hs⟩
        · rcases get?_append_singleton _ _ _ _ h' with h'' | ⟨hi, hev⟩
          · exact Or.inl h''
          · subst hev
            refine Or.inr ⟨by omega, rfl, ?_, ?_, ?_⟩
            · intro _; rw [hi]
            · intro hout; rcases hout with hout | hout <;> exact absurd hout (by simp)
            · intro hout
              rcases hout with ⟨c, hc⟩ | ⟨b, hb⟩
              · simp [hev0] at hc
              · simp [hev0] at hb
        · refine Or.inr ⟨by simp at hi; omega, hf, hs⟩
      · intro hno
        rw [heq]
        exact ih4 hno
    | timedOut =>
      have heq : callLoop env jitter fb (fuel + 1) model events =
          callLoop env jitter fb fuel model
            (events ++ [⟨model, false, CallOutcome.timedOut,
              if MAX_RETRIES - (fuel + 1) < MAX_RETRIES - 1
                then some BASE_RETRY_DELAY else none⟩]) := by
        simp only [callLoop, ho]
      set ev0 : CallEvent := ⟨model, false, CallOutcome.timedOut,
        if MAX_RETRIES - (fuel + 1) < MAX_RETRIES - 1
          then some BASE_RETRY_DELAY else none⟩ with hev0
      have hlen' : (events ++ [ev0]).length + fuel = MAX_RETRIES := by
        simp; omega
      obtain ⟨ih1, ⟨new, hnew, hnewf⟩, ih3, ih4⟩ := ih model (events ++ [ev0]) hlen'
      refine ⟨by rw [heq]; exact ih1,
        ⟨ev0 :: new, by rw [heq, hnew]; simp, ?_⟩, ?_, ?_⟩
      · intro ev hev
        rcases List.mem_cons.mp hev with hev' | hev'
        · subst hev'; rfl
        · exact hnewf ev hev'
      · intro i ev h
        rw [heq] at h
        rcases ih3 i ev h with h' | ⟨hi, hf, hs⟩
        · rcases get?_append_singleton _ _ _ _ h' with h'' | ⟨hi, hev⟩
          · exact Or.inl h''
          · subst hev
            refine Or.inr ⟨by omega, rfl, ?_, ?_, ?_⟩
            · intro hout; exact absurd hout (by simp)
            · intro _
              rw [hi]
              show (if MAX_RETRIES - (fuel + 1) < MAX_RETRIES - 1
                  then some BASE_RETRY_DELAY else none : Option ℚ) =
                if events.length < MAX_RETRIES - 1
                  then some BASE_RETRY_DELAY else none
              rw [hatt]
            · intro hout
              rcases hout with ⟨c, hc⟩ | ⟨b, hb⟩
              · simp [hev0] at hc
              · simp [hev0] at hb
        · refine Or.inr ⟨by simp at hi; omega, hf, hs⟩
      · intro hno
        rw [heq]
        exact ih4 hno
    | apiError =>
      have heq : callLoop env jitter fb (fuel + 1) model events =
          callLoop env jitter fb fuel model
            (events ++ [⟨model, false, CallOutcome.apiError,
              if MAX_RETRIES - (fuel + 1) < MAX_RETRIES - 1
                then some BASE_RETRY_DELAY else none⟩]) := by
        simp only [callLoop, ho]
      set ev0 : CallEvent := ⟨model, false, CallOutcome.apiError,
        if MAX_RETRIES - (fuel + 1) < MAX_RETRIES - 1
          then some BASE_RETRY_DELAY else none⟩ with hev0
      have hlen' : (events ++ [ev0]).length + fuel = MAX_RETRIES := by
        simp; omega
      obtain ⟨ih1, ⟨new, hnew, hnewf⟩, ih3, ih4⟩ := ih model (events ++ [ev0]) hlen'
      refine ⟨by rw [heq]; exact ih1,
        ⟨ev0 :: new, by rw [heq, hnew]; simp, ?_⟩, ?_, ?_⟩
      · intro ev hev
        rcases List.mem_cons.mp hev with hev' | hev'
        · subst hev'; rfl
        · exact hnewf ev hev'
      · intro i ev h
        rw [heq] at h
        rcases ih3 i ev h with h' | ⟨hi, hf, hs⟩
        · rcases get?_append_singleton _ _ _ _ h' with h'' | ⟨hi, hev⟩
          · exact Or.inl h''
          · subst hev
            refine Or.inr ⟨by omega, rfl, ?_, ?_, ?_⟩
            · intro hout; exact absurd hout (by simp)
            · intro _
              rw [hi]
              show (if MAX_RETRIES - (fuel + 1) < MAX_RETRIES - 1
                  then some BASE_RETRY_DELAY else none : Option ℚ) =
                if events.length < MAX_RETRIES - 1
                  then some BASE_RETRY_DELAY else none
              rw [hatt]
            · intro hout
              rcases hout with ⟨c, hc⟩ | ⟨b, hb⟩
              · simp [hev0] at hc
              · simp [hev0] at hb
        · refine Or.inr ⟨by simp at hi; omega, hf, hs⟩
      · intro hno
        rw [heq]
        exact ih4 hno
    | exn b =>
      set ev0 : CallEvent := ⟨model, false, CallOutcome.exn b, none⟩ with hev0
      have hspec : ∀ i ev, ((events ++ [ev0]).get? i = some ev) →
          events.get? i = some ev ∨
            (events.length ≤ i ∧ ev.isFallbackShot = false ∧ sleepSpec i jitter ev) := by
        intro i ev h
        rcases get?_append_singleton _ _ _ _ h with h' | ⟨hi, hev⟩
        · exact Or.inl h'
        · subst hev
          refine Or.inr ⟨by omega, rfl, ?_, ?_, ?_⟩
          · intro hout; exact absurd hout (by simp)
          · intro hout; rcases hout with hout | hout <;> exact absurd hout (by simp)
          · intro _; rfl
      by_cases hcond : (b && fb.isSome && fb ≠ some model) = true
      · have heq : callLoop env jitter fb (fuel + 1) model events =
            callLoop env jitter fb fuel (fb.getD model) (events ++ [ev0]) := by
          simp only [callLoop, ho]
          rw [if_pos hcond]
        have hlen' : (events ++ [ev0]).length + fuel = MAX_RETRIES := by
          simp; omega
        obtain ⟨ih1, ⟨new, hnew, hnewf⟩, ih3, ih4⟩ :=
          ih (fb.getD model) (events ++ [ev0]) hlen'
        refine ⟨by rw [heq]; exact ih1,
          ⟨ev0 :: new, by rw [heq, hnew]; simp, ?_⟩, ?_, ?_⟩
        · intro ev hev
          rcases List.mem_cons.mp hev with hev' | hev'
          · subst hev'; rfl
          · exact hnewf ev hev'
        · intro i ev h
          rw [heq] at h
          rcases ih3 i ev h with h' | ⟨hi, hf, hs⟩
          · exact hspec i ev h'
          · refine Or.inr ⟨by simp at hi; omega, hf, hs⟩
        · intro hno
          rw [heq]
          exact ih4 hno
      · have heq : callLoop env jitter fb (fuel + 1) model events =
            (LoopExit.fellThrough model, events ++ [ev0]) := by
          simp only [callLoop, ho]
          rw [if_neg hcond]
        refine ⟨by rw [heq]; simp; omega,
          ⟨[ev0], by rw [heq], by simp [hev0]⟩, ?_, ?_⟩
        · intro i ev h
          rw [heq] at h
          exact hspec i ev h
        · intro _
          rw [heq]
          exact ⟨model, rfl⟩

/-- C5: `_call_llm` makes at most `MAX_RETRIES = 3` loop attempts plus at
most one fresh single-shot fallback call (at most 4 `create` calls in all); a
fallback shot happens only when a fallback model is configured and differs
from the model variable's final value after the loop, and it targets exactly
that fallback model; every loop attempt's sleep follows the policy —
exponential backoff `min(1.0 * 2^attempt + jitter, 10.0)` on rate limit,
fixed `1.0`-second delay on timeout and on API error except after the last
attempt, no sleep otherwise; and when every call fails the function returns
`none` (the embedding is a total function: no exception propagates). -/
theorem C5_invoke_retry_policy (env : Nat → CallOutcome) (jitter : Nat → ℚ)
    (primary : String) (fb : Option String) :
    ((call_llm env jitter primary fb).2.length ≤ MAX_RETRIES + 1)
    ∧ (((call_llm env jitter primary fb).2.filter
          (fun ev => !ev.isFallbackShot)).length ≤ MAX_RETRIES)
    ∧ (((call_llm env jitter primary fb).2.filter
          (fun ev => ev.isFallbackShot)).length ≤ 1)
    ∧ (∀ ev ∈ (call_llm env jitter primary fb).2, ev.isFallbackShot = true →
        ∃ m evs, callLoop env jitter fb MAX_RETRIES primary [] =
            (LoopExit.fellThrough m, evs)
          ∧ fb = some ev.model ∧ ev.model ≠ m)
    ∧ (∀ i ev, (call_llm env jitter primary fb).2.get? i = some ev →
        ev.isFallbackShot = false → sleepSpec i jitter ev)
    ∧ ((∀ n c, env n ≠ CallOutcome.ok c) →
        (call_llm env jitter primary fb).1 = none) := by
  obtain ⟨h1, ⟨new, hnew, hnewf⟩, h3, h4⟩ :=
    callLoop_spec env jitter fb MAX_RETRIES primary [] (by simp)
  rcases hcl : callLoop env jitter fb MAX_RETRIES primary [] with ⟨exit, evs⟩
  rw [hcl] at h1 h3 h4 hnew
  simp only [List.nil_append] at hnew
  have hlen : evs.length ≤ MAX_RETRIES := by simpa using h1
  have hevsf : ∀ ev ∈ evs, ev.isFallbackShot = false := by
    intro ev hev
    exact hnewf ev (hnew ▸ hev)
  have hffil : evs.filter (fun ev => ev.isFallbackShot) = [] := by
    refine List.filter_eq_nil_iff.mpr ?_
    intro ev hev
    simp [hevsf ev hev]
  have hspec5 : ∀ i ev, evs.get? i = some ev → sleepSpec i jitter ev := by
    intro i ev h
    rcases h3 i ev h with h' | ⟨_, _, hs⟩
    · simp at h'
    · exact hs
  cases exit with
  | returned v =>
    have hres : call_llm env jitter primary fb = (v, evs) := by
      simp only [call_llm, hcl]
    rw [hres]
    refine ⟨by simp; omega, ?_, ?_, ?_, ?_, ?_⟩
    · calc (evs.filter (fun ev => !ev.isFallbackShot)).length
          ≤ evs.length := List.length_filter_le _ _
        _ ≤ MAX_RETRIES := by simpa using h1
    · simp [hffil]
    · intro ev hev hf
      rw [hevsf ev hev] at hf
      exact absurd hf (by simp)
    · intro i ev h _
      exact hspec5 i ev h
    · intro hno
      obtain ⟨m, hm⟩ := h4 hno
      exact absurd hm (by simp)
  | fellThrough m =>
    cases hfb : fb with
    | none =>
      subst hfb
      have hres : call_llm env jitter primary none = (none, evs) := by
        simp only [call_llm, hcl]
      rw [hres]
      refine ⟨by simp; omega, ?_, ?_, ?_, ?_, fun _ => rfl⟩
      · calc (evs.filter (fun ev => !ev.isFallbackShot)).length
            ≤ evs.length := List.length_filter_le _ _
          _ ≤ MAX_RETRIES := hlen
      · simp [hffil]
      · intro ev hev hf
        rw [hevsf ev hev] at hf
        exact absurd hf (by simp)
      · intro i ev h _
        exact hspec5 i ev h
    | some f =>
      subst hfb
      by_cases hf : f ≠ m
      · set fev : CallEvent := ⟨f, true, env evs.length, none⟩ with hfev
        have hres : call_llm env jitter primary (some f) =
            ((match env evs.length with
              | CallOutcome.ok content =>
                match content with
                | none => none
                | some p => p
              | _ => none), evs ++ [fev]) := by
          simp only [call_llm, hcl]
          rw [if_pos hf]
        rw [hres]
        refine ⟨?_, ?_, ?_, ?_, ?_, ?_⟩
        · simp only [List.length_append, List.length_cons, List.length_nil]
          omega
        · rw [List.filter_append]
          have : [fev].filter (fun ev => !ev.isFallbackShot) = [] := by
            simp [hfev]
          rw [this, List.append_nil]
          calc (evs.filter (fun ev => !ev.isFallbackShot)).length
              ≤ evs.length := List.length_filter_le _ _
            _ ≤ MAX_RETRIES := hlen
        · rw [List.filter_append, hffil]
          simp [hfev]
        · intro ev hev hft
          rcases List.mem_append.mp hev with hev' | hev'
          · rw [hevsf ev hev'] at hft
            exact absurd hft (by simp)
          · simp only [List.mem_singleton] at hev'
            subst hev'
            exact ⟨m, evs, rfl, by simp [hfev], by simpa [hfev] using hf⟩
        · intro i ev h hft
          rcases get?_append_singleton _ _ _ _ h with h' | ⟨_, hev⟩
          · exact hspec5 i ev h'
          · subst hev
            exact absurd hft (by simp [hfev])
        · intro hno
          cases henv : env evs.length with
          | ok c => exact absurd henv (hno _ c)
          | rateLimited => simp [henv]
          | timedOut => simp [henv]
          | apiError => simp [henv]
          | exn b => simp [henv]
      · have hres : call_llm env jitter primary (some f) = (none, evs) := by
          simp only [call_llm, hcl]
          rw [if_neg hf]
        rw [hres]
        refine ⟨by simp; omega, ?_, ?_, ?_, ?_, fun _ => rfl⟩
        · calc (evs.filter (fun ev => !ev.isFallbackShot)).length
              ≤ evs.length := List.length_filter_le _ _
            _ ≤ MAX_RETRIES := hlen
        · simp [hffil]
        · intro ev hev hft
          rw [hevsf ev hev] at hft
          exact absurd hft (by simp)
        · intro i ev h _
          exact hspec5 i ev h

/-- C5 witness: with every call rate limited, primary `qwen/qwen3-32b` and
fallback `meta-llama/llama-3.3-70b-instruct`, the invoke operation returns
`none`. -/
theorem C5_invoke_retry_policy_witness :
    (call_llm (fun _ => CallOutcome.rateLimited) (fun _ => 1 / 2)
        "qwen/qwen3-32b" (some "meta-llama/llama-3.3-70b-instruct")).1
      = none := by
  refine (C5_invoke_retry_policy (fun _ => CallOutcome.rateLimited)
      (fun _ => 1 / 2) "qwen/qwen3-32b"
      (some "meta-llama/llama-3.3-70b-instruct")).2.2.2.2.2 ?_
  intro n c h
  exact CallOutcome.noConfusion h

/-! ### Resume semantics (C2) -/

/-- C2 counterexample: the mcp-compiler never reads the failed-servers
document — with a resume-enabled startup against files whose failed document
holds a retryable record, the in-memory failed map is still empty
(`MCPCompiler.__init__` loads only the compiled document and the resume
branch of `run_phase1` loads only the progress document; no other code path
reads `failedServers.json`). -/
theorem C2_failed_map_not_loaded_counterexample :
    (mcpResumeProgress fixtureFiles (mcpInitState fixtureFiles) true).failed = []
    ∧ fixtureFiles.failedFile = some [fixtureFailedRec]
    ∧ fixtureFailedRec.retryable = true := by
  exact ⟨rfl, rfl, rfl⟩

/-- C2 (amended): on resume, both pipelines load the progress document and
the compiled map (the mcp-compiler loads the compiled map unconditionally at
startup) and both skip every record whose id is already in the compiled map;
but only the model-compiler also loads the failed map — the mcp-compiler
starts with an empty failed map regardless of what is on disk. -/
theorem C2_resume_loading (fs : OutputFiles) (servers : List ServerData)
    (limit : Option Nat) (p : Progress) (hp : fs.progressFile = some p)
    (mfs : ModelFiles) (models : List ModelRec) (mlimit : Option Nat)
    (q : ModelProgress) (hq : mfs.progressFile = some q) :
    ((mcpResumeProgress fs (mcpInitState fs) true).progress = p)
    ∧ ((mcpResumeProgress fs (mcpInitState fs) true).compiled = load_compiled fs)
    ∧ ((mcpResumeProgress fs (mcpInitState fs) true).failed = [])
    ∧ (∀ s ∈ mcpServersToProcess servers
          (mcpResumeProgress fs (mcpInitState fs) true) limit true,
        ¬ ((dictKeys (load_compiled fs)).contains s.registryId = true))
    ∧ ((model_load_progress mfs {}).progress = q)
    ∧ ((model_load_progress mfs {}).compiled
        = (mfs.compiledFile.getD []).foldl (fun m e => dictInsert m e.id e) [])
    ∧ ((model_load_progress mfs {}).failed
        = (mfs.failedFile.getD []).foldl (fun m e => dictInsert m e.id e) [])
    ∧ (∀ mo ∈ modelModelsToProcess models (model_load_progress mfs {}) mlimit true,
        ∀ k, modelKey mo = some k →
          ¬ ((dictKeys (model_load_progress mfs {}).compiled).contains k = true)) := by
  have hres : mcpResumeProgress fs (mcpInitState fs) true =
      { compiled := load_compiled fs, failed := [], progress := p } := by
    simp [mcpResumeProgress, hp, mcpInitState]
  refine ⟨by rw [hres], by rw [hres], by rw [hres], ?_, ?_, ?_, ?_, ?_⟩
  · intro s hs
    simp only [mcpServersToProcess, List.mem_filter] at hs
    have := hs.2
    rw [hres] at this
    simpa using this
  · simp [model_load_progress, hq]
  · cases hcf : mfs.compiledFile <;> simp [model_load_progress, hq, hcf]
  · cases hff : mfs.failedFile <;> simp [model_load_progress, hq, hff]
  · intro mo hmo k hk
    simp only [modelModelsToProcess, List.mem_filter] at hmo
    have := hmo.2
    rw [hk] at this
    simpa using this

/-- C2 witness: on resume against the concrete fixture files, the fixture
record surviving the slice is not among the loaded compiled ids. -/
theorem C2_resume_loading_witness :
    ¬ ((dictKeys (load_compiled fixtureFiles)).contains
        fixtureServerB.registryId = true) := by
  refine (C2_resume_loading fixtureFiles [fixtureServerA, fixtureServerB] none
      fixtureProgress rfl fixtureModelFiles [] none { processed := 3 } rfl
      ).2.2.2.1 fixtureServerB ?_
  decide

/-! ### Dict lemmas, processor shape, and pipeline invariants (C10, C1) -/

theorem dictKeys_dictInsert (m : List (String × α)) (k : String) (v : α) :
    dictKeys (dictInsert m k v)
      = if m.any (fun p => p.1 = k) then dictKeys m else dictKeys m ++ [k] := by
  unfold dictInsert dictKeys
  split
  · rw [List.map_map]
    refine List.map_congr_left ?_
    intro p _
    by_cases h : p.1 = k <;> simp [h]
  · simp

theorem mem_dictKeys_dictInsert (m : List (String × α)) (k k' : String) (v : α) :
    k' ∈ dictKeys (dictInsert m k v) ↔ k' ∈ dictKeys m ∨ k' = k := by
  rw [dictKeys_dictInsert]
  split
  · constructor
    · exact fun h => Or.inl h
    · rintro (h | h)
      · exact h
      · subst h
        rename_i hany
        rw [List.any_eq_true] at hany
        obtain ⟨p, hp, hpk⟩ := hany
        simp only [decide_eq_true_eq] at hpk
        exact hpk ▸ List.mem_map_of_mem Prod.fst hp
  · simp

theorem dictInsert_forall_values (m : List (String × α)) (k : String) (v : α)
    (P : α → Prop) (hm : ∀ kv ∈ m, P kv.2) (hv : P v) :
    ∀ kv ∈ dictInsert m k v, P kv.2 := by
  intro kv hkv
  unfold dictInsert at hkv
  split at hkv
  · rcases List.mem_map.mp hkv with ⟨p, hp, hpe⟩
    by_cases h : p.1 = k
    · rw [if_pos h] at hpe
      rw [← hpe]
      exact hv
    · rw [if_neg h] at hpe
      rw [← hpe]
      exact hm p hp
  · rcases List.mem_append.mp hkv with h | h
    · exact hm kv h
    · simp only [List.mem_singleton] at h
      rw [h]
      exact hv

theorem dictGet_mem (m : List (String × α)) (k : String) (v : α)
    (h : dictGet m k = some v) : (k, v) ∈ m := by
  unfold dictGet at h
  rcases hf : m.find? (fun p => p.1 = k) with _ | p
  · rw [hf] at h; simp at h
  · rw [hf] at h
    simp at h
    have hp := List.mem_of_find?_eq_some hf
    have hk := List.find?_some hf
    simp only [decide_eq_true_eq] at hk
    have hpe : p = (k, v) := by
      rcases p with ⟨p1, p2⟩
      simp_all
    rw [← hpe]
    exact hp

theorem processConfigs_shape (server : ServerData) (env : ProcEnv) :
    ∀ (configs : List SpawnConfig) (i : Nat) (tried : List String)
      (le lc : String),
      (∃ c msg, processConfigs server env configs i tried le lc
          = { compiled := some c, failed := none, success := true, msg := msg })
      ∨ (∃ f msg, processConfigs server env configs i tried le lc
          = { compiled := none, failed := some f, success := false, msg := msg }
          ∧ f.retryable = false) := by
  intro configs
  induction configs with
  | nil =>
    intro i tried le lc
    right
    refine ⟨_, _, rfl, rfl⟩
  | cons config rest ih =>
    intro i tried le lc
    simp only [processConfigs]
    split
    · left; exact ⟨_, _, rfl⟩
    · split
      · left; exact ⟨_, _, rfl⟩
      · exact ih (i + 1) (tried ++ [config.transport]) _ _

theorem process_server_shape (server : ServerData) (env : ProcEnv) :
    ((process_server_with_model server env).compiled.isSome
        ∧ (process_server_with_model server env).failed = none)
    ∨ ((process_server_with_model server env).compiled = none
        ∧ (∃ f, (process_server_with_model server env).failed = some f
            ∧ f.retryable = false)) := by
  rcases processConfigs_shape server env (get_spawn_configs server) 0 [] "" "" with
    ⟨c, msg, h⟩ | ⟨f, msg, h, hr⟩
  · left
    unfold process_server_with_model
    rw [h]
    exact ⟨rfl, rfl⟩
  · right
    unfold process_server_with_model
    rw [h]
    exact ⟨rfl, f, rfl, hr⟩

theorem phase1Handle_st_flushes (acc : Phase1Acc) (id : String)
    (res : Option ProcResult) :
    (phase1HandleResult acc id res).flushes = acc.flushes
    ∨ ∃ n, (phase1HandleResult acc id res).flushes
        = acc.flushes ++ [(n, (phase1HandleResult acc id res).st)] := by
  rcases res with _ | r
  · left; rfl
  · simp only [phase1HandleResult]
    split
    · right; exact ⟨_, rfl⟩
    · left; rfl

theorem phase1Handle_mem_compiled (acc : Phase1Acc) (id : String)
    (res : Option ProcResult) (k : String) :
    k ∈ dictKeys (phase1HandleResult acc id res).st.compiled ↔
      k ∈ dictKeys acc.st.compiled
      ∨ (k = id ∧ ∃ r, res = some r ∧ r.compiled.isSome) := by
  rcases res with _ | r
  · have hmap : (phase1HandleResult acc id none).st.compiled
        = acc.st.compiled := rfl
    rw [hmap]
    simp
  · rcases r with ⟨c?, f?, succ, msg⟩
    rcases c? with _ | c
    · have hmap : (phase1HandleResult acc id (some ⟨none, f?, succ, msg⟩)).st.compiled
          = acc.st.compiled := by
        rcases f? with _ | f <;> simp only [phase1HandleResult] <;>
          split_ifs <;> rfl
      rw [hmap]
      simp
    · have hmap : (phase1HandleResult acc id (some ⟨some c, f?, succ, msg⟩)).st.compiled
          = dictInsert acc.st.compiled id c := by
        rcases f? with _ | f <;> simp only [phase1HandleResult] <;>
          split_ifs <;> rfl
      rw [hmap, mem_dictKeys_dictInsert]
      simp

theorem phase1Handle_mem_failed (acc : Phase1Acc) (id : String)
    (res : Option ProcResult) (k : String) :
    k ∈ dictKeys (phase1HandleResult acc id res).st.failed ↔
      k ∈ dictKeys acc.st.failed
      ∨ (k = id ∧ ∃ r, res = some r ∧ r.failed.isSome) := by
  rcases res with _ | r
  · have hmap : (phase1HandleResult acc id none).st.failed
        = acc.st.failed := rfl
    rw [hmap]
    simp
  · rcases r with ⟨c?, f?, succ, msg⟩
    rcases f? with _ | f
    · have hmap : (phase1HandleResult acc id (some ⟨c?, none, succ, msg⟩)).st.failed
          = acc.st.failed := by
        rcases c? with _ | c <;> simp only [phase1HandleResult] <;>
          split_ifs <;> rfl
      rw [hmap]
      simp
    · have hmap : (phase1HandleResult acc id (some ⟨c?, some f, succ, msg⟩)).st.failed
          = dictInsert acc.st.failed id f := by
        rcases c? with _ | c <;> simp only [phase1HandleResult] <;>
          split_ifs <;> rfl
      rw [hmap, mem_dictKeys_dictInsert]
      simp

theorem phase1Handle_failed_values (acc : Phase1Acc) (id : String)
    (res : Option ProcResult) (P : FailedServer → Prop)
    (hm : ∀ kv ∈ acc.st.failed, P kv.2)
    (hres : ∀ r, res = some r → ∀ f, r.failed = some f → P f) :
    ∀ kv ∈ (phase1HandleResult acc id res).st.failed, P kv.2 := by
  rcases res with _ | r
  · exact hm
  · rcases r with ⟨c?, f?, succ, msg⟩
    rcases f? with _ | f
    · have hmap : (phase1HandleResult acc id (some ⟨c?, none, succ, msg⟩)).st.failed
          = acc.st.failed := by
        rcases c? with _ | c <;> simp only [phase1HandleResult] <;>
          split_ifs <;> rfl
      rw [hmap]
      exact hm
    · have hmap : (phase1HandleResult acc id (some ⟨c?, some f, succ, msg⟩)).st.failed
          = dictInsert acc.st.failed id f := by
        rcases c? with _ | c <;> simp only [phase1HandleResult] <;>
          split_ifs <;> rfl
      rw [hmap]
      exact dictInsert_forall_values _ _ _ _ hm (hres _ rfl f rfl)

theorem phase1_foldl_frame :
    ∀ (items : List (String × Option ProcResult)) (acc : Phase1Acc) (k : String),
      (∀ it ∈ items, it.1 ≠ k) →
      ((k ∈ dictKeys
          ((items.foldl (fun a it => phase1HandleResult a it.1 it.2) acc)).st.compiled
        ↔ k ∈ dictKeys acc.st.compiled)
      ∧ (k ∈ dictKeys
          ((items.foldl (fun a it => phase1HandleResult a it.1 it.2) acc)).st.failed
        ↔ k ∈ dictKeys acc.st.failed)) := by
  intro items
  induction items with
  | nil => intro acc k _; exact ⟨Iff.rfl, Iff.rfl⟩
  | cons it rest ih =>
    intro acc k hne
    rw [List.foldl_cons]
    have h1 := ih (phase1HandleResult acc it.1 it.2) k
      (fun x hx => hne x (List.mem_cons_of_mem it hx))
    have hk : k ≠ it.1 := Ne.symm (hne it (List.mem_cons_self it rest))
    refine ⟨?_, ?_⟩
    · rw [h1.1, phase1Handle_mem_compiled]
      simp [hk]
    · rw [h1.2, phase1Handle_mem_failed]
      simp [hk]

theorem phase1_foldl_invariant :
    ∀ (items : List (String × Option ProcResult)) (acc : Phase1Acc),
      (∀ it ∈ items, ∀ r, it.2 = some r →
          (r.compiled.isSome ∧ r.failed = none)
          ∨ (r.compiled = none ∧ r.failed.isSome)) →
      ((items.map Prod.fst).Nodup) →
      (∀ it ∈ items, it.1 ∉ dictKeys acc.st.compiled
          ∧ it.1 ∉ dictKeys acc.st.failed) →
      (∀ k, ¬(k ∈ dictKeys acc.st.compiled ∧ k ∈ dictKeys acc.st.failed)) →
      (∀ snap ∈ acc.flushes, ∀ k,
          ¬(k ∈ dictKeys snap.2.compiled ∧ k ∈ dictKeys snap.2.failed)) →
      (∀ k, ¬(k ∈ dictKeys
            ((items.foldl (fun a it => phase1HandleResult a it.1 it.2) acc)).st.compiled
          ∧ k ∈ dictKeys
            ((items.foldl (fun a it => phase1HandleResult a it.1 it.2) acc)).st.failed))
      ∧ (∀ snap ∈
            ((items.foldl (fun a it => phase1HandleResult a it.1 it.2) acc)).flushes,
          ∀ k, ¬(k ∈ dictKeys snap.2.compiled ∧ k ∈ dictKeys snap.2.failed))
      ∧ (∀ it ∈ items, ∀ r, it.2 = some r →
          ((it.1 ∈ dictKeys
              ((items.foldl (fun a it => phase1HandleResult a it.1 it.2) acc)).st.compiled)
            ↔ r.compiled.isSome = true)
          ∧ ((it.1 ∈ dictKeys
              ((items.foldl (fun a it => phase1HandleResult a it.1 it.2) acc)).st.failed)
            ↔ r.failed.isSome = true))
      ∧ (∀ it ∈ items, it.2 = none →
          it.1 ∉ dictKeys
            ((items.foldl (fun a it => phase1HandleResult a it.1 it.2) acc)).st.compiled
          ∧ it.1 ∉ dictKeys
            ((items.foldl (fun a it => phase1HandleResult a it.1 it.2) acc)).st.failed) := by
  intro items
  induction items with
  | nil =>
    intro acc _ _ _ hdis hfl
    refine ⟨hdis, hfl, ?_, ?_⟩
    · intro it hit; simp at hit
    · intro it hit; simp at hit
  | cons it rest ih =>
    intro acc hsh hnd hfresh hdis hfl
    have hnd0 : (it.1 :: rest.map Prod.fst).Nodup := by simpa using hnd
    have hnd' := List.nodup_cons.mp hnd0
    have hrestne : ∀ x ∈ rest, x.1 ≠ it.1 := by
      intro x hx he
      exact hnd'.1 (he ▸ List.mem_map_of_mem Prod.fst hx)
    have hfr := hfresh it (List.mem_cons_self it rest)
    have hdisA : ∀ k,
        ¬(k ∈ dictKeys (phase1HandleResult acc it.1 it.2).st.compiled
          ∧ k ∈ dictKeys (phase1HandleResult acc it.1 it.2).st.failed) := by
      rintro k ⟨hkc, hkf⟩
      rw [phase1Handle_mem_compiled] at hkc
      rw [phase1Handle_mem_failed] at hkf
      rcases hkc with hkc | ⟨hke, r1, hr1, hc1⟩
      · rcases hkf with hkf | ⟨hke, r2, hr2, hf2⟩
        · exact hdis k ⟨hkc, hkf⟩
        · subst hke
          exact hfr.1 hkc
      · rcases hkf with hkf | ⟨hke2, r2, hr2, hf2⟩
        · subst hke
          exact hfr.2 hkf
        · subst hke
          rw [hr1] at hr2
          injection hr2 with hr12
          subst hr12
          rcases hsh it (List.mem_cons_self it rest) r1 hr1 with ⟨_, hn⟩ | ⟨hn, _⟩
          · rw [hn] at hf2; exact absurd hf2 (by simp)
          · rw [hn] at hc1; exact absurd hc1 (by simp)
    have hflA : ∀ snap ∈ (phase1HandleResult acc it.1 it.2).flushes, ∀ k,
        ¬(k ∈ dictKeys snap.2.compiled ∧ k ∈ dictKeys snap.2.failed) := by
      rcases phase1Handle_st_flushes acc it.1 it.2 with he | ⟨n, he⟩
      · rw [he]; exact hfl
      · rw [he]
        intro snap hsnap
        rcases List.mem_append.mp hsnap with h | h
        · exact hfl snap h
        · simp only [List.mem_singleton] at h
          subst h
          exact hdisA
    have hfreshA : ∀ x ∈ rest,
        x.1 ∉ dictKeys (phase1HandleResult acc it.1 it.2).st.compiled
        ∧ x.1 ∉ dictKeys (phase1HandleResult acc it.1 it.2).st.failed := by
      intro x hx
      have hxf := hfresh x (List.mem_cons_of_mem it hx)
      constructor
      · rw [phase1Handle_mem_compiled]
        rintro (h | ⟨he, _⟩)
        · exact hxf.1 h
        · exact hrestne x hx he
      · rw [phase1Handle_mem_failed]
        rintro (h | ⟨he, _⟩)
        · exact hxf.2 h
        · exact hrestne x hx he
    have ihres := ih (phase1HandleResult acc it.1 it.2)
      (fun x hx r hr => hsh x (List.mem_cons_of_mem it hx) r hr)
      (by simpa using hnd'.2) hfreshA hdisA hflA
    have hframe := phase1_foldl_frame rest (phase1HandleResult acc it.1 it.2)
      it.1 hrestne
    refine ⟨?_, ?_, ?_, ?_⟩
    · rw [List.foldl_cons]
      exact ihres.1
    · rw [List.foldl_cons]
      exact ihres.2.1
    · intro x hx r hr
      rcases List.mem_cons.mp hx with hx' | hx'
      · subst hx'
        rw [List.foldl_cons]
        constructor
        · rw [hframe.1, phase1Handle_mem_compiled]
          constructor
          · rintro (h | ⟨_, r', hr', hc'⟩)
            · exact absurd h hfr.1
            · rw [hr] at hr'
              injection hr' with hre
              rw [hre]
              exact hc'
          · intro h
            exact Or.inr ⟨rfl, r, hr, h⟩
        · rw [hframe.2, phase1Handle_mem_failed]
          constructor
          · rintro (h | ⟨_, r', hr', hf'⟩)
            · exact absurd h hfr.2
            · rw [hr] at hr'
              injection hr' with hre
              rw [hre]
              exact hf'
          · intro h
            exact Or.inr ⟨rfl, r, hr, h⟩
      · rw [List.foldl_cons]
        exact ihres.2.2.1 x hx' r hr
    · intro x hx hr
      rcases List.mem_cons.mp hx with hx' | hx'
      · subst hx'
        rw [List.foldl_cons]
        constructor
        · rw [hframe.1, phase1Handle_mem_compiled]
          rintro (h | ⟨_, r', hr', _⟩)
          · exact hfr.1 h
          · rw [hr] at hr'
            exact Option.noConfusion hr'
        · rw [hframe.2, phase1Handle_mem_failed]
          rintro (h | ⟨_, r', hr', _⟩)
          · exact hfr.2 h
          · rw [hr] at hr'
            exact Option.noConfusion hr'
      · rw [List.foldl_cons]
        exact ihres.2.2.2 x hx' hr

theorem phase1_foldl_failed_values :
    ∀ (items : List (String × Option ProcResult)) (acc : Phase1Acc)
      (P : FailedServer → Prop),
      (∀ kv ∈ acc.st.failed, P kv.2) →
      (∀ it ∈ items, ∀ r, it.2 = some r → ∀ f, r.failed = some f → P f) →
      ∀ kv ∈ ((items.foldl (fun a it => phase1HandleResult a it.1 it.2) acc)).st.failed,
        P kv.2 := by
  intro items
  induction items with
  | nil => intro acc P hm _; exact hm
  | cons it rest ih =>
    intro acc P hm hres
    rw [List.foldl_cons]
    exact ih (phase1HandleResult acc it.1 it.2) P
      (phase1Handle_failed_values acc it.1 it.2 P hm
        (hres it (List.mem_cons_self it rest)))
      (fun x hx r hr => hres x (List.mem_cons_of_mem it hx) r hr)

theorem phase2Select_of_nonretryable (servers : List ServerData)
    (failed : List (String × FailedServer))
    (h : ∀ kv ∈ failed, kv.2.retryable = false) :
    phase2Select servers failed = [] := by
  refine List.filter_eq_nil_iff.mpr ?_
  intro s _
  cases hg : dictGet failed s.registryId with
  | none => simp [hg]
  | some f =>
    have hmem := dictGet_mem failed s.registryId f hg
    have hval : f.retryable = false := h (s.registryId, f) hmem
    simp [hg, hval]

theorem truthyTake_nil (limit : Option Nat) : truthyTake limit ([] : List α) = [] := by
  rcases limit with _ | n
  · rfl
  · simp [truthyTake]

theorem run_phase2_noop (servers : List ServerData) (st : CompilerState)
    (limit : Option Nat) (envOf : String → Option ProcEnv) (perm : Nat → Nat)
    (h : ∀ kv ∈ st.failed, kv.2.retryable = false) :
    run_phase2 servers st limit envOf perm = (st, []) := by
  unfold run_phase2
  rw [phase2Select_of_nonretryable servers st.failed h, truthyTake_nil]
  rfl

theorem runPhase1Loop_st (st0 : CompilerState)
    (items : List (String × Option ProcResult)) :
    (runPhase1Loop st0 items).st
      = (items.foldl (fun a it => phase1HandleResult a it.1 it.2) ⟨st0, 0, []⟩).st := by
  rfl

theorem run_all_failed_values (fs : OutputFiles) (servers : List ServerData)
    (p1items : List (ServerData × Option ProcEnv)) :
    ∀ kv ∈ (runPhase1Loop (mcpInitState fs)
        (p1items.map (fun it =>
          (it.1.registryId, it.2.map (process_server_with_model it.1))))).st.failed,
      kv.2.retryable = false := by
  rw [runPhase1Loop_st]
  refine phase1_foldl_failed_values _ ⟨mcpInitState fs, 0, []⟩
    (fun f => f.retryable = false) ?_ ?_
  · intro kv hkv
    exact absurd hkv (List.not_mem_nil kv)
  intro it hit r hr f hf
  rcases List.mem_map.mp hit with ⟨p, _, he⟩
  rw [← he] at hr
  have hr' : p.2.map (process_server_with_model p.1) = some r := hr
  rcases hp2 : p.2 with _ | env0
  · rw [hp2] at hr'; exact Option.noConfusion hr'
  · rw [hp2] at hr'
    have hre : process_server_with_model p.1 env0 = r := by simpa using hr'
    rcases process_server_shape p.1 env0 with ⟨_, hn⟩ | ⟨_, f', hf', hret⟩
    · rw [← hre, hn] at hf
      exact Option.noConfusion hf
    · rw [← hre, hf'] at hf
      injection hf with hfe
      rw [← hfe]
      exact hret

/-- C10: every `FailedServer` that `process_server_with_model` produces has
`retryable = false` (the dataclass default `True` is always overridden), the
retry pass dispatches only failed entries whose `retryable` flag is truthy,
and consequently in a full fresh run (phase 1 then phase 2) the retry
selection is empty and phase 2 leaves the state untouched: no record is ever
actually retried. -/
theorem C10_retry_pass_always_empty (fs : OutputFiles)
    (servers : List ServerData)
    (p1items : List (ServerData × Option ProcEnv)) (limit : Option Nat)
    (envOf2 : String → Option ProcEnv) (perm2 : Nat → Nat)
    (s : ServerData) (env : ProcEnv) :
    ((process_server_with_model s env).failed.all (fun f => !f.retryable) = true)
    ∧ ((run_all servers (mcpInitState fs) p1items limit envOf2
          perm2).1.st.failed.all (fun kv => !kv.2.retryable) = true)
    ∧ (phase2Select servers
        (run_all servers (mcpInitState fs) p1items limit envOf2
          perm2).1.st.failed = [])
    ∧ ((run_all servers (mcpInitState fs) p1items limit envOf2 perm2).2
        = (run_all servers (mcpInitState fs) p1items limit envOf2
            perm2).1.st) := by
  have hvals := run_all_failed_values fs servers p1items
  have hall : (run_all servers (mcpInitState fs) p1items limit envOf2
      perm2).1.st.failed.all (fun kv => !kv.2.retryable) = true := by
    rw [List.all_eq_true]
    intro kv hkv
    have := hvals kv hkv
    simp [this]
  refine ⟨?_, hall, ?_, ?_⟩
  · rcases process_server_shape s env with ⟨_, hn⟩ | ⟨_, f, hf, hret⟩
    · rw [hn]; rfl
    · rw [hf]
      simp [hret]
  · exact phase2Select_of_nonretryable _ _ hvals
  · show (run_phase2 servers _ limit envOf2 perm2).1 = _
    rw [run_phase2_noop _ _ _ _ _ hvals]
    rfl

/-- C1 counterexample: in a full fresh run where one record's worker raises
an unexpected exception, that record is counted as processed but appears in
NEITHER the compiled map nor the failed map at the final flush — the claim's
"exactly one of the two maps" fails for it (the "never both" half is what
survives, see the amended theorem). -/
theorem C1_exception_dropped_counterexample :
    ((run_all [fixtureServerA, fixtureServerB] (mcpInitState {})
        [(fixtureServerA, some fixtureEnvFail), (fixtureServerB, none)] none
        (fun _ => none) (fun n => n)).2.progress.processed = 2)
    ∧ ("srv-b" ∉ dictKeys (run_all [fixtureServerA, fixtureServerB]
        (mcpInitState {})
        [(fixtureServerA, some fixtureEnvFail), (fixtureServerB, none)] none
        (fun _ => none) (fun n => n)).2.compiled)
    ∧ ("srv-b" ∉ dictKeys (run_all [fixtureServerA, fixtureServerB]
        (mcpInitState {})
        [(fixtureServerA, some fixtureEnvFail), (fixtureServerB, none)] none
        (fun _ => none) (fun n => n)).2.failed) := by
  exact ⟨by decide, by decide, by decide⟩

/-- C1 (amended): in a full fresh run (initial pass plus retry pass) over
records with distinct ids none of which is already compiled, at every
observation point after a flush — every phase-1 checkpoint snapshot, the
end-of-batch flush, and the state phase 2 flushes — no id is ever in both
the compiled map and the failed map; every record processed without a worker
exception ends in exactly one of the two maps, and a record whose worker
raised ends in neither. -/
theorem C1_at_most_one_outcome_per_id (fs : OutputFiles)
    (servers : List ServerData)
    (p1items : List (ServerData × Option ProcEnv)) (limit : Option Nat)
    (envOf2 : String → Option ProcEnv) (perm2 : Nat → Nat)
    (hids : (p1items.map (fun it => it.1.registryId)).Nodup)
    (hfresh : ∀ it ∈ p1items,
        it.1.registryId ∉ dictKeys (mcpInitState fs).compiled) :
    (∀ snap ∈ (run_all servers (mcpInitState fs) p1items limit envOf2
        perm2).1.flushes,
      ∀ k, ¬(k ∈ dictKeys snap.2.compiled ∧ k ∈ dictKeys snap.2.failed))
    ∧ (∀ k, ¬(k ∈ dictKeys (run_all servers (mcpInitState fs) p1items limit
          envOf2 perm2).2.compiled
        ∧ k ∈ dictKeys (run_all servers (mcpInitState fs) p1items limit
          envOf2 perm2).2.failed))
    ∧ (∀ it ∈ p1items, ∀ env, it.2 = some env →
        (it.1.registryId ∈ dictKeys (run_all servers (mcpInitState fs) p1items
            limit envOf2 perm2).2.compiled
          ∧ it.1.registryId ∉ dictKeys (run_all servers (mcpInitState fs)
            p1items limit envOf2 perm2).2.failed)
        ∨ (it.1.registryId ∉ dictKeys (run_all servers (mcpInitState fs)
            p1items limit envOf2 perm2).2.compiled
          ∧ it.1.registryId ∈ dictKeys (run_all servers (mcpInitState fs)
            p1items limit envOf2 perm2).2.failed))
    ∧ (∀ it ∈ p1items, it.2 = none →
        it.1.registryId ∉ dictKeys (run_all servers (mcpInitState fs) p1items
          limit envOf2 perm2).2.compiled
        ∧ it.1.registryId ∉ dictKeys (run_all servers (mcpInitState fs)
          p1items limit envOf2 perm2).2.failed) := by
  have hitems_sh : ∀ it ∈ (p1items.map (fun it =>
      (it.1.registryId, it.2.map (process_server_with_model it.1)))),
      ∀ r, it.2 = some r →
        (r.compiled.isSome ∧ r.failed = none)
        ∨ (r.compiled = none ∧ r.failed.isSome) := by
    intro it hit r hr
    rcases List.mem_map.mp hit with ⟨p, _, he⟩
    rw [← he] at hr
    have hr' : p.2.map (process_server_with_model p.1) = some r := hr
    rcases hp2 : p.2 with _ | env0
    · rw [hp2] at hr'; exact Option.noConfusion hr'
    · rw [hp2] at hr'
      have hre : process_server_with_model p.1 env0 = r := by simpa using hr'
      rcases process_server_shape p.1 env0 with ⟨hs, hn⟩ | ⟨hn, f, hf, _⟩
      · left; rw [← hre]; exact ⟨hs, hn⟩
      · right
        rw [← hre]
        exact ⟨hn, by rw [hf]; rfl⟩
  have hitems_nd : ((p1items.map (fun it =>
      (it.1.registryId, it.2.map (process_server_with_model it.1)))).map
        Prod.fst).Nodup := by
    rw [List.map_map]
    simpa [Function.comp] using hids
  have hitems_fresh : ∀ it ∈ (p1items.map (fun it =>
      (it.1.registryId, it.2.map (process_server_with_model it.1)))),
      it.1 ∉ dictKeys (mcpInitState fs).compiled
      ∧ it.1 ∉ dictKeys (mcpInitState fs).failed := by
    intro it hit
    rcases List.mem_map.mp hit with ⟨p, hp, he⟩
    rw [← he]
    exact ⟨hfresh p hp, by simp [mcpInitState, dictKeys]⟩
  have hinv := phase1_foldl_invariant
    (p1items.map (fun it =>
      (it.1.registryId, it.2.map (process_server_with_model it.1))))
    ⟨mcpInitState fs, 0, []⟩ hitems_sh hitems_nd hitems_fresh
    (by
      intro k hk
      have hkf := hk.2
      simp [mcpInitState, dictKeys] at hkf)
    (by
      intro snap hsnap
      exact absurd hsnap (List.not_mem_nil snap))
  have hnoop : (run_all servers (mcpInitState fs) p1items limit envOf2
      perm2).2 = (run_all servers (mcpInitState fs) p1items limit envOf2
        perm2).1.st := by
    show (run_phase2 servers _ limit envOf2 perm2).1 = _
    rw [run_phase2_noop _ _ _ _ _ (run_all_failed_values fs servers p1items)]
    rfl
  have hst : (run_all servers (mcpInitState fs) p1items limit envOf2
      perm2).1.st = ((p1items.map (fun it =>
        (it.1.registryId, it.2.map (process_server_with_model it.1)))).foldl
          (fun a it => phase1HandleResult a it.1 it.2)
          ⟨mcpInitState fs, 0, []⟩).st := rfl
  refine ⟨?_, ?_, ?_, ?_⟩
  · intro snap hsnap k
    have hfl : (run_all servers (mcpInitState fs) p1items limit envOf2
        perm2).1.flushes = ((p1items.map (fun it =>
          (it.1.registryId, it.2.map (process_server_with_model it.1)))).foldl
            (fun a it => phase1HandleResult a it.1 it.2)
            ⟨mcpInitState fs, 0, []⟩).flushes
        ++ [(((p1items.map (fun it =>
          (it.1.registryId, it.2.map (process_server_with_model it.1)))).foldl
            (fun a it => phase1HandleResult a it.1 it.2)
            ⟨mcpInitState fs, 0, []⟩).st.progress.processed,
          ((p1items.map (fun it =>
          (it.1.registryId, it.2.map (process_server_with_model it.1)))).foldl
            (fun a it => phase1HandleResult a it.1 it.2)
            ⟨mcpInitState fs, 0, []⟩).st)] := rfl
    rw [hfl] at hsnap
    rcases List.mem_append.mp hsnap with h | h
    · exact hinv.2.1 snap h k
    · simp only [List.mem_singleton] at h
      subst h
      exact hinv.1 k
  · intro k
    rw [hnoop, hst]
    exact hinv.1 k
  · intro it hit env henv
    have hm : (it.1.registryId, it.2.map (process_server_with_model it.1)) ∈
        (p1items.map (fun it =>
          (it.1.registryId, it.2.map (process_server_with_model it.1)))) :=
      List.mem_map_of_mem _ hit
    have h3 := hinv.2.2.1 _ hm (process_server_with_model it.1 env)
      (by rw [henv]; rfl)
    rw [hnoop, hst]
    rcases process_server_shape it.1 env with ⟨hs, hn⟩ | ⟨hn, f, hf, _⟩
    · left
      refine ⟨h3.1.mpr hs, ?_⟩
      intro hmem
      have := h3.2.mp hmem
      rw [hn] at this
      exact absurd this (by simp)
    · right
      refine ⟨?_, h3.2.mpr (by rw [hf]; rfl)⟩
      intro hmem
      have := h3.1.mp hmem
      rw [hn] at this
      exact absurd this (by simp)
  · intro it hit henv
    have hm : (it.1.registryId, it.2.map (process_server_with_model it.1)) ∈
        (p1items.map (fun it =>
          (it.1.registryId, it.2.map (process_server_with_model it.1)))) :=
      List.mem_map_of_mem _ hit
    have h4 := hinv.2.2.2 _ hm (by rw [henv]; rfl)
    rw [hnoop, hst]
    exact h4

/-- C1 witness: a one-record fresh run whose only record fails ends with
that id in the failed map and not in the compiled map. -/
theorem C1_at_most_one_outcome_per_id_witness :
    ("srv-a" ∈ dictKeys (run_all [fixtureServerA] (mcpInitState {})
        [(fixtureServerA, some fixtureEnvFail)] none (fun _ => none)
        (fun n => n)).2.failed)
    ∧ ("srv-a" ∉ dictKeys (run_all [fixtureServerA] (mcpInitState {})
        [(fixtureServerA, some fixtureEnvFail)] none (fun _ => none)
        (fun n => n)).2.compiled) := by
  have h := (C1_at_most_one_outcome_per_id {} [fixtureServerA]
      [(fixtureServerA, some fixtureEnvFail)] none (fun _ => none)
      (fun n => n) (by decide) (by intro it hit; simp at hit; rw [hit]; decide)
      ).2.2.1 (fixtureServerA, some fixtureEnvFail)
      (List.mem_singleton.mpr rfl) fixtureEnvFail rfl
  rcases h with ⟨h1, _⟩ | ⟨h1, h2⟩
  · exact absurd h1 (by decide)
  · exact ⟨h2, h1⟩

end Services
